import Mathlib

/-!
Verification of the linskybing/k8s-device-plugin fractional-GPU core.

Go maps are modelled as association lists (`List (String × β)`); the list
order stands for the (arbitrary) map iteration order.  Go slices are Lean
lists; Go `int`/`int64` are `Int` (with `Nat` where the source value is
provably non-negative and guards make truncated subtraction exact).
-/

namespace KDP

/-- Association-list lookup: first entry with the given key (Go map read). -/
def alFind? {β : Type} : List (String × β) → String → Option β
  | [], _ => none
  | p :: rest, k => if p.1 = k then some p.2 else alFind? rest k

/-- Association-list write: replace the first entry with the key, or append
a fresh entry (Go map write). -/
def alSet {β : Type} : List (String × β) → String → β → List (String × β)
  | [], k, v => [(k, v)]
  | p :: rest, k, v => if p.1 = k then (k, v) :: rest else p :: alSet rest k v

/-- Association-list delete of the first entry with the key (Go `delete`). -/
def alErase {β : Type} : List (String × β) → String → List (String × β)
  | [], _ => []
  | p :: rest, k => if p.1 = k then rest else p :: alErase rest k

theorem alFind?_alSet_self {β : Type} (l : List (String × β)) (k : String) (v : β) :
    alFind? (alSet l k v) k = some v := by
  induction l with
  | nil => simp [alSet, alFind?]
  | cons p rest ih =>
    by_cases h : p.1 = k
    · simp [alSet, alFind?, h]
    · simp [alSet, alFind?, h, ih]

theorem alFind?_alSet_ne {β : Type} (l : List (String × β)) (k k' : String) (v : β)
    (h : k ≠ k') : alFind? (alSet l k v) k' = alFind? l k' := by
  induction l with
  | nil => simp [alSet, alFind?, h]
  | cons p rest ih =>
    by_cases hp : p.1 = k
    · simp [alSet, alFind?, hp, h]
    · simp only [alSet, if_neg hp]
      by_cases hp' : p.1 = k'
      · simp [alFind?, hp']
      · simp [alFind?, hp', ih]

/-- Integer-valued lookup defaulting to 0 (Go map read of a missing key). -/
def alGetI (l : List (String × Int)) (k : String) : Int :=
  (alFind? l k).getD 0

theorem alGetI_alSet_self (l : List (String × Int)) (k : String) (v : Int) :
    alGetI (alSet l k v) k = v := by
  simp [alGetI, alFind?_alSet_self]

theorem alGetI_alSet_ne (l : List (String × Int)) (k k' : String) (v : Int)
    (h : k ≠ k') : alGetI (alSet l k v) k' = alGetI l k' := by
  simp [alGetI, alFind?_alSet_ne l k k' v h]

/-- Lexicographic order on char lists by code point (Go compares strings
byte-wise; for UTF-8, byte order and code-point order coincide). -/
def charsLt : List Char → List Char → Bool
  | [], [] => false
  | [], _ :: _ => true
  | _ :: _, [] => false
  | a :: as, b :: bs =>
    if a.toNat < b.toNat then true
    else if b.toNat < a.toNat then false
    else charsLt as bs

/-- Go `a < b` on strings. -/
def strLt (a b : String) : Bool :=
  charsLt a.data b.data

/-- Go `a <= b` on strings. -/
def strLe (a b : String) : Bool :=
  !(strLt b a)

/-- Insert into an ascending list (helper of `sortStrings`). -/
def insertAsc (x : String) : List String → List String
  | [] => [x]
  | y :: rest => if strLe x y then x :: y :: rest else y :: insertAsc x rest

/-- `sort.Strings`: ascending sort.  (Strings that compare equal are equal,
so every correct sort returns this same list.) -/
def sortStrings (l : List String) : List String :=
  l.foldr insertAsc []

theorem insertAsc_perm (x : String) (l : List String) :
    List.Perm (insertAsc x l) (x :: l) := by
  induction l with
  | nil => simp [insertAsc]
  | cons y rest ih =>
    by_cases h : strLe x y
    · simp [insertAsc, h]
    · simp only [insertAsc, h]
      simp only [Bool.false_eq_true, if_false]
      exact (ih.cons y).trans (List.Perm.swap x y rest)

theorem sortStrings_perm (l : List String) : List.Perm (sortStrings l) l := by
  induction l with
  | nil => simp [sortStrings]
  | cons x rest ih =>
    simp only [sortStrings, List.foldr_cons]
    exact (insertAsc_perm x _).trans (ih.cons x)

/-! ## Resource-manager allocator (src/internal/rm/allocate.go) -/

/-- One device-plugin device; only the fields the allocator reads.
`replicas` is Go `Device.Replicas`. -/
structure Device where
  replicas : Nat
deriving Repr, DecidableEq

/-- Characters before the first `::` separator (the first component of
`strings.SplitN(s, "::", 2)`). -/
def baseChars : List Char → List Char
  | [] => []
  | ':' :: ':' :: _ => []
  | c :: rest => c :: baseChars rest

/-- `AnnotatedID.GetID`: strip the `::replica` suffix (upstream splits on the
first `::`; the spec: GetBase strips the suffix). -/
def getID (s : String) : String :=
  ⟨baseChars s.data⟩

/-- Number of IDs in the list whose base is `base` (used for Go's
`reqCount` map and to state per-card bounds). -/
def countBase (ids : List String) (base : String) : Nat :=
  (ids.filter (fun id => getID id = base)).length

/-- `r.devices.Subset(available).Difference(r.devices.Subset(required)).GetIDs()`:
the device IDs that are available and not required.  `GetIDs` iterates a Go
map, so the order is the (arbitrary) enumeration order of `devices`. -/
def candidatesOf (devices : List (String × Device)) (available required : List String) :
    List String :=
  (devices.filter (fun p => available.contains p.1 && !(required.contains p.1))).map Prod.fst

/-- Append `id` to the group of `base`, creating the group if absent
(Go `groups[base] = append(groups[base], c)`). -/
def groupPush (gs : List (String × List String)) (base id : String) :
    List (String × List String) :=
  match gs with
  | [] => [(base, [id])]
  | g :: rest => if g.1 = base then (g.1, g.2 ++ [id]) :: rest else g :: groupPush rest base id

/-- Group the candidate annotated IDs by base ID, in candidate order. -/
def groupsOf (candidates : List String) : List (String × List String) :=
  candidates.foldl (fun gs c => groupPush gs (getID c) c) []

/-- Per-base capacity: `Device.Replicas` of the first device whose base
matches, when > 1; otherwise 1 (the Go loop breaks at the first match and
defaults to 1). -/
def capacityOf (devices : List (String × Device)) (base : String) : Nat :=
  match devices.find? (fun p => decide (getID p.1 = base)) with
  | some p => if p.2.replicas > 1 then p.2.replicas else 1
  | none => 1

/-- Total allocatable slots across all bases: Σ min(|group|, capacity −
required count), skipping bases whose capacity is exhausted by `required`. -/
def totalAllocatable (devices : List (String × Device)) (required : List String)
    (groups : List (String × List String)) : Nat :=
  groups.foldl (fun acc g =>
    if capacityOf devices g.1 ≤ countBase required g.1 then acc
    else acc + min g.2.length (capacityOf devices g.1 - countBase required g.1)) 0

/-- The single-base fast-path fold: running best `(bestBase, bestLeftover)`
with Go's `("", -1)` sentinel start and replacement condition
`bestLeftover == -1 || leftover < bestLeftover ||
(leftover == bestLeftover && base < bestBase)`. -/
def fastFold (devices : List (String × Device)) (required : List String) (needed : Nat)
    (groups : List (String × List String)) : String × Int :=
  groups.foldl (fun best g =>
    if capacityOf devices g.1 ≤ countBase required g.1 then best
    else
      let maxAlloc := min g.2.length (capacityOf devices g.1 - countBase required g.1)
      if maxAlloc < needed then best
      else
        let leftover : Int := (maxAlloc - needed : Nat)
        if best.2 = -1 ∨ leftover < best.2 ∨ (leftover = best.2 ∧ strLt g.1 best.1) then
          (g.1, leftover)
        else best)
    (("" : String), (-1 : Int))

/-- Look up a group's list by base (map read; `[]` when absent). -/
def groupList (gs : List (String × List String)) (base : String) : List String :=
  (alFind? gs base).getD []

/-- A candidate row of the iterative best-fit loop. -/
structure Cand where
  base : String
  alloc : Nat
  leftoverAfter : Nat
  availableSlots : Nat
deriving Repr, DecidableEq

/-- Build the candidate rows for one iteration of the best-fit loop:
skip empty groups, exhausted capacity, and zero allocations;
`alloc = min(avail, remCap, remaining)`, `leftoverAfter = remCap − alloc`. -/
def candsOf (devices : List (String × Device)) (used : String → Nat) (remaining : Nat)
    (groups : List (String × List String)) : List Cand :=
  groups.filterMap (fun g =>
    if g.2.length = 0 then none
    else if capacityOf devices g.1 ≤ used g.1 then none
    else
      let remCap := capacityOf devices g.1 - used g.1
      let alloc := min (min g.2.length remCap) remaining
      if alloc = 0 then none
      else some ⟨g.1, alloc, remCap - alloc, g.2.length⟩)

/-- The comparator of the best-fit loop: minimal `leftoverAfter`, then larger
`alloc`, then smaller base ID. -/
def candLt (a b : Cand) : Bool :=
  if a.leftoverAfter = b.leftoverAfter then
    if a.alloc = b.alloc then strLt a.base b.base
    else decide (b.alloc < a.alloc)
  else decide (a.leftoverAfter < b.leftoverAfter)

/-- Pick the minimal candidate row (Go sorts `cands` with a strict total
comparator — bases are distinct — and takes `cands[0]`). -/
def pickCand (cands : List Cand) : Option Cand :=
  match cands with
  | [] => none
  | c :: rest => some (rest.foldl (fun best d => if candLt d best then d else best) c)

/-- One pass of the iterative best-fit loop, with fuel (the loop runs while
`remaining > 0` and some row allocates; every pass consumes ≥ 1, so fuel =
initial `needed` reproduces the `for remaining > 0` loop exactly). -/
def iterLoop (devices : List (String × Device)) :
    Nat → List (String × List String) → (String → Nat) → Nat → List String → List String
  | 0, _, _, _, selected => selected
  | fuel + 1, groups, used, remaining, selected =>
    if remaining = 0 then selected
    else
      match pickCand (candsOf devices used remaining groups) with
      | none => selected
      | some c =>
        let take := c.alloc
        let sel' := selected ++ (groupList groups c.base).take take
        let groups' := groups.map (fun g => if g.1 = c.base then (g.1, g.2.drop take) else g)
        let used' := fun b => if b = c.base then used b + take else used b
        iterLoop devices fuel groups' used' (remaining - take) sel'

/-- `capacityAwareAlloc(available, required, size)`: capacity-aware best-fit
allocation of annotated IDs.  `none` models the Go error return. -/
def capacityAwareAlloc (devices : List (String × Device)) (available required : List String)
    (size : Nat) : Option (List String) :=
  if size ≤ required.length then some required
  else
    let needed := size - required.length
    let candidates := candidatesOf devices available required
    if candidates.isEmpty then some required
    else
      let groups := groupsOf candidates
      if totalAllocatable devices required groups = 0 then none
      else
        let best := fastFold devices required needed groups
        if best.1 ≠ ("") then some (required ++ (groupList groups best.1).take needed)
        else
          let sorted := groups.map (fun g => (g.1, sortStrings g.2))
          some (required ++ iterLoop devices needed sorted (fun b => countBase required b) needed [])

/-! ## Node accountant server (spec §4.1)

The `/reserve`, `/unreserve` and finalize handlers of the node accountant
are exercised by the in-repo tests (`TestReserveUnreserveHandlers`,
`TestMultipleReservationsOverflow`, `TestDoubleReserveSamePod`,
`TestReserveAllocateUnreserve`) but their implementation file is not part
of the provided sources, so they are modelled from the specification. -/

/-- Modelled from the spec: the node accountant's store — the missing
`nvidiaDevicePlugin` fields `deviceRemaining` (DeviceLedger, cardID →
remaining percent) and `allocations` (AllocationTable, podKey → cardID →
pending percent). -/
structure NAState where
  deviceRemaining : List (String × Int)
  allocations : List (String × List (String × Int))
deriving Repr, DecidableEq

/-- Modelled from the spec: one card of a `/reserve` request — compute
`grant = min(percent, RemainingPercent[cardID])`; if `grant > 0`, debit the
ledger by `grant` and add `grant` to `AllocationTable[podKey][cardID]`. -/
def reserveOne (s : NAState) (podKey : String) (percent : Int) (card : String) : NAState :=
  let rem := alGetI s.deviceRemaining card
  let grant := min percent rem
  if 0 < grant then
    let podMap := (alFind? s.allocations podKey).getD []
    { deviceRemaining := alSet s.deviceRemaining card (rem - grant)
      allocations := alSet s.allocations podKey (alSet podMap card (alGetI podMap card + grant)) }
  else s

/-- Modelled from the spec: the missing `reserveHandler` — `POST /reserve`
with `{podKey, devices, percent}` processes each card in order and always
answers 200. -/
def reserveHandler (s : NAState) (podKey : String) (devices : List String) (percent : Int) :
    Nat × NAState :=
  (200, devices.foldl (fun st c => reserveOne st podKey percent c) s)

/-- Modelled from the spec: the missing `unreserveHandler` — `POST
/unreserve` credits the ledger by every pending amount of the pod and drops
the pod's entry; idempotent (200) when the pod has no pending entries. -/
def unreserveHandler (s : NAState) (podKey : String) : Nat × NAState :=
  match alFind? s.allocations podKey with
  | none => (200, s)
  | some podMap =>
    (200,
      { deviceRemaining := podMap.foldl (fun r e => alSet r e.1 (alGetI r e.1 + e.2)) s.deviceRemaining
        allocations := alErase s.allocations podKey })

/-- Modelled from the spec: the missing finalize step of the allocate path —
for each provided card, delete the pending `(PodKey, cardID)` entries
without crediting the ledger. -/
def finalize (s : NAState) (cards : List String) : NAState :=
  { deviceRemaining := s.deviceRemaining
    allocations := s.allocations.map (fun p => (p.1, p.2.filter (fun e => !(cards.contains e.1)))) }

/-- Pending percent of `(podKey, card)` in the allocation table. -/
def pendingOf (s : NAState) (podKey card : String) : Int :=
  alGetI ((alFind? s.allocations podKey).getD []) card

/-! ## Reserve orchestration (src/internal/scheduler, `ReserveLogic`) -/

/-- `GPURequest` (src/internal/scheduler/plugin.go). -/
structure GPURequest where
  numCards : Int
  percentPerCard : Int
deriving Repr, DecidableEq

/-- Observable calls issued by `ReserveLogic` to its collaborators: the
cluster capacity manager (`Reserve`/`Release`), the device picker, and the
node-local reserve client. -/
inductive RCall where
  | gReserve (podKey nodeName : String) (numCards percent : Int)
  | gRelease (podKey nodeName : String)
  | pick (nodeName : String) (numCards percent : Int)
  | nodeReserve (nodeName podKey : String) (devices : List String) (percent : Int)
deriving Repr, DecidableEq

/-- `ReserveLogic` (src/internal/plugin/server_http_test.go, scheduler part):
cluster reserve, then pick, then node-local reserve, releasing the cluster
reservation when pick or node reserve fails.  The collaborators' outcomes
are inputs (the functions are injected in the source); the second component
is the trace of calls issued. -/
def ReserveLogic (podKey : String) (req : GPURequest) (nodeName : String)
    (capReserveErr : Option String)
    (pickResult : Except String (List String))
    (nodeReserveErr : List String → Option String) :
    Except String (List String) × List RCall :=
  let calls0 := [RCall.gReserve podKey nodeName req.numCards req.percentPerCard]
  match capReserveErr with
  | some e => (.error (("capacity manager rejected reservation: ") ++ e), calls0)
  | none =>
    let calls1 := calls0 ++ [RCall.pick nodeName req.numCards req.percentPerCard]
    match pickResult with
    | .error e => (.error e, calls1 ++ [RCall.gRelease podKey nodeName])
    | .ok devices =>
      let calls2 := calls1 ++ [RCall.nodeReserve nodeName podKey devices req.percentPerCard]
      match nodeReserveErr devices with
      | some e => (.error e, calls2 ++ [RCall.gRelease podKey nodeName])
      | none => (.ok devices, calls2)

/-! ## Aggregator merge (src/internal/scheduler/merge.go) -/

/-- `DeviceReservation`. -/
structure DeviceReservation where
  podKey : String
  percent : Int
deriving Repr, DecidableEq

/-- `DeviceStatus` of a NodeReservation. -/
structure DeviceStatus where
  id : String
  reservations : List DeviceReservation
  totalReservedPercent : Int
deriving Repr, DecidableEq

/-- `NodeReservation`, flattened: `nodeName` is `Spec.NodeName`, `devices`
is `Status.Devices`. -/
structure NodeReservation where
  nodeName : String
  devices : List DeviceStatus
deriving Repr, DecidableEq

/-- `ReservationSpec` of the Reservation CR. -/
structure ReservationSpec where
  podKey : String
  nodeName : String
  numCards : Int
  percentPerCard : Int
deriving Repr, DecidableEq

/-- The two error returns of `MergeReservationIntoNodeState`. -/
inductive MergeErr where
  | nodeMismatch
  | insufficientCapacity
deriving Repr, DecidableEq

/-- A device can take the reservation: `TotalReservedPercent + percent ≤ 100`. -/
def devHasRoom (percentPerCard : Int) (d : DeviceStatus) : Bool :=
  decide (d.totalReservedPercent + percentPerCard ≤ 100)

/-- `MergeReservationIntoNodeState`: reject on node mismatch, collect the
indices of devices with room, fail with InsufficientCapacity when fewer
than `numCards`, otherwise append the reservation to the first `numCards`
candidates.  The first component is the returned NodeReservation (the
input itself on failure). -/
def MergeReservationIntoNodeState (node : NodeReservation) (spec : ReservationSpec) :
    NodeReservation × Option MergeErr :=
  if node.nodeName ≠ ("") ∧ spec.nodeName ≠ ("") ∧ node.nodeName ≠ spec.nodeName then
    (node, some .nodeMismatch)
  else
    let candidates := (node.devices.enum.filter (fun p => devHasRoom spec.percentPerCard p.2)).map
      Prod.fst
    if (candidates.length : Int) < spec.numCards then (node, some .insufficientCapacity)
    else
      let pick := candidates.take spec.numCards.toNat
      ({ node with
          devices := node.devices.enum.map (fun p =>
            if pick.contains p.1 then
              { p.2 with
                  reservations := p.2.reservations ++ [⟨spec.podKey, spec.percentPerCard⟩]
                  totalReservedPercent := p.2.totalReservedPercent + spec.percentPerCard }
            else p.2) },
        none)

/-! ## Scorer (src/internal/scheduler/score.go) -/

/-- The clamp at the end of `ScoreNodeTopNAverage`. -/
def clampScore (avg : Int) : Int :=
  if avg > 100 then 100 else if avg < 0 then 0 else avg

/-- `ScoreNodeTopNAverage`: given the fetched `/status` map `m` (the HTTP
fetch is a collaborator), error when the node reports fewer than `numCards`
devices, else the clamped integer mean of the `numCards` largest remaining
percents (Go `/` truncates, hence `Int.tdiv`). -/
def ScoreNodeTopNAverage (m : List (String × Int)) (numCards : Nat) : Except String Int :=
  if m.length < numCards then
    .error ("insufficient devices")
  else
    let rems := m.map Prod.snd
    let sorted := rems.insertionSort (fun a b => b ≤ a)
    let sum := (sorted.take numCards).foldl (· + ·) 0
    .ok (clampScore (Int.tdiv sum (numCards : Int)))

/-! ## In-memory capacity manager (src/internal/scheduler/capacity_manager.go) -/

/-- A recorded cluster reservation (`reservation` struct). -/
structure CMReservation where
  numCards : Int
  percent : Int
deriving Repr, DecidableEq

/-- `InMemoryCapacityManager.reservations`: nodeName → podKey → reservation. -/
def CMState : Type :=
  List (String × List (String × CMReservation))

/-- `InMemoryCapacityManager.Reserve`: record (overwriting any prior entry
for the same pod on the node) and return nil. -/
def imReserve (s : CMState) (podKey nodeName : String) (numCards percent : Int) :
    CMState × Option String :=
  let inner := (alFind? s nodeName).getD []
  (alSet s nodeName (alSet inner podKey ⟨numCards, percent⟩), none)

/-- `InMemoryCapacityManager.Release`: drop the pod's entry when present
(and the node's map when it becomes empty) and return nil. -/
def imRelease (s : CMState) (podKey nodeName : String) : CMState × Option String :=
  match alFind? s nodeName with
  | none => (s, none)
  | some inner =>
    let inner' := alErase inner podKey
    (if inner'.isEmpty then alErase s nodeName else alSet s nodeName inner', none)

/-! ## MPS allocation-response assembler (src/internal/plugin/mps.go) -/

/-- A device as seen by the response assembler; only `Index` is read. -/
structure MDevice where
  index : String
deriving Repr, DecidableEq

/-- `Devices.GetByID`. -/
def getByID (ds : List (String × MDevice)) (id : String) : Option MDevice :=
  (alFind? ds id)

/-- The resolution order of `updateReponse`: daemon device map by annotated
ID, then by base ID, then the resource manager's devices by base ID. -/
def resolveDevice (daemonDevs rmDevs : List (String × MDevice)) (reqID : String) :
    Option MDevice :=
  match getByID daemonDevs reqID with
  | some d => some d
  | none =>
    match getByID daemonDevs (getID reqID) with
    | some d => some d
    | none => getByID rmDevs (getID reqID)

/-- The unique GPU indices resolved from the requested annotated IDs, in
first-seen order (unknown IDs are skipped). -/
def resolvedIndices (daemonDevs rmDevs : List (String × MDevice)) (requestIds : List String) :
    List String :=
  requestIds.foldl (fun acc reqID =>
    match resolveDevice daemonDevs rmDevs reqID with
    | none => acc
    | some dev => if acc.contains dev.index then acc else acc ++ [dev.index]) []

/-- The fixed control-device paths appended to every response. -/
def controlDevices : List String :=
  [("/dev/nvidiactl"), ("/dev/nvidia-uvm"), ("/dev/nvidia-uvm-tools"), ("/dev/nvidia-modeset")]

/-- The device bindings `updateReponse` appends to the container response:
one `/dev/nvidia<idx>` per resolved index (sorted), then the fixed control
devices. -/
def updateReponseDevices (daemonDevs rmDevs : List (String × MDevice))
    (requestIds : List String) : List String :=
  let indices := sortStrings (resolvedIndices daemonDevs rmDevs requestIds)
  indices.map (fun idx => ("/dev/nvidia") ++ idx) ++ controlDevices

/-! ## Theorems -/

/-- C10: `InMemoryCapacityManager.Reserve` returns nil for every input and
records the reservation, overwriting any prior reservation by the same pod
on that node; `Release` returns nil even with no matching reservation; so
with the in-memory backend, step 1 of the reserve flow can never reject —
the flow always reaches the device-pick step. -/
theorem imReserve_always_accepts (s : CMState) (podKey nodeName : String)
    (numCards percent : Int) :
    (imReserve s podKey nodeName numCards percent).2 = none ∧
    alFind? ((alFind? (imReserve s podKey nodeName numCards percent).1 nodeName).getD [])
      podKey = some ⟨numCards, percent⟩ ∧
    (imRelease s podKey nodeName).2 = none ∧
    (∀ (pickResult : Except String (List String)) (nodeReserveErr : List String → Option String),
      RCall.pick nodeName numCards percent ∈
        (ReserveLogic podKey ⟨numCards, percent⟩ nodeName none pickResult nodeReserveErr).2) := by
  refine ⟨rfl, ?_, ?_, ?_⟩
  · show alFind? ((alFind? (alSet s nodeName
      (alSet ((alFind? s nodeName).getD []) podKey ⟨numCards, percent⟩)) nodeName).getD [])
        podKey = some ⟨numCards, percent⟩
    rw [alFind?_alSet_self]
    exact alFind?_alSet_self _ _ _
  · rw [imRelease]
    cases alFind? s nodeName with
    | none => rfl
    | some inner =>
      by_cases h : (alErase inner podKey).isEmpty <;> simp [h]
  · intro pickResult nodeReserveErr
    cases pickResult with
    | error e => simp [ReserveLogic]
    | ok ds =>
      cases h : nodeReserveErr ds with
      | none => simp [ReserveLogic, h]
      | some e => simp [ReserveLogic, h]

/-- C2: when the cluster capacity manager's Reserve succeeded but device
picking or the node-local reserve fails, `ReserveLogic` returns an error
with no devices and issues `Release(podKey, nodeName)`; on a pick failure
the node-local reserve call is never issued. -/
theorem reserveLogic_rollback_releases (podKey : String) (req : GPURequest) (nodeName : String)
    (capReserveErr : Option String) (pickResult : Except String (List String))
    (nodeReserveErr : List String → Option String)
    (hcap : capReserveErr = none)
    (hfail : (∃ e, pickResult = .error e) ∨
      (∃ ds, pickResult = .ok ds ∧ nodeReserveErr ds ≠ none)) :
    (∃ e, (ReserveLogic podKey req nodeName capReserveErr pickResult nodeReserveErr).1 =
      .error e) ∧
    RCall.gRelease podKey nodeName ∈
      (ReserveLogic podKey req nodeName capReserveErr pickResult nodeReserveErr).2 ∧
    (∀ e, pickResult = .error e → ∀ n p ds pc,
      RCall.nodeReserve n p ds pc ∉
        (ReserveLogic podKey req nodeName capReserveErr pickResult nodeReserveErr).2) := by
  subst hcap
  rcases hfail with ⟨e, he⟩ | ⟨ds, hds, hne⟩
  · subst he
    refine ⟨⟨e, rfl⟩, ?_, ?_⟩
    · simp [ReserveLogic]
    · intro e' _ n p ds pc
      simp [ReserveLogic]
  · subst hds
    rcases Option.ne_none_iff_exists'.mp hne with ⟨e, he⟩
    refine ⟨⟨e, ?_⟩, ?_, ?_⟩
    · simp [ReserveLogic, he]
    · simp [ReserveLogic, he]
    · intro e' he'
      cases he'

/-- Witness for C2 at a concrete pick failure. -/
theorem reserveLogic_rollback_releases_witness :
    (∃ e, (Except.error ("pickfail") : Except String (List String)) = .error e) ∧
    ((∃ e, (ReserveLogic ("ns/p") ⟨1, 10⟩ ("nodeX") none (.error ("pickfail"))
        (fun _ => none)).1 = .error e) ∧
      RCall.gRelease ("ns/p") ("nodeX") ∈
        (ReserveLogic ("ns/p") ⟨1, 10⟩ ("nodeX") none (.error ("pickfail"))
          (fun _ => none)).2 ∧
      (∀ e, (Except.error ("pickfail") : Except String (List String)) = .error e →
        ∀ n p ds pc,
          RCall.nodeReserve n p ds pc ∉
            (ReserveLogic ("ns/p") ⟨1, 10⟩ ("nodeX") none (.error ("pickfail"))
              (fun _ => none)).2)) :=
  ⟨⟨("pickfail"), rfl⟩,
    reserveLogic_rollback_releases ("ns/p") ⟨1, 10⟩ ("nodeX") none (.error ("pickfail"))
      (fun _ => none) rfl (Or.inl ⟨("pickfail"), rfl⟩)⟩

/-- C6 counterexample: with a positive number of still-needed IDs and an
empty candidate list (so zero allocatable slots), `capacityAwareAlloc`
returns the required list with no error instead of failing. -/
theorem capacityAwareAlloc_empty_candidates_ce :
    [("a::0")].length < 2 ∧
    candidatesOf [(("a::0"), ⟨1⟩)] [] [("a::0")] = [] ∧
    capacityAwareAlloc [(("a::0"), ⟨1⟩)] [] [("a::0")] 2 = some [("a::0")] := by
  decide

/-- C6 amended: when the still-needed count is positive and the candidate
list is nonempty but the total allocatable slot count is zero,
`capacityAwareAlloc` fails; an empty candidate list instead returns the
required list unchanged without error. -/
theorem capacityAwareAlloc_noCapacity_error (devices : List (String × Device))
    (available required : List String) (size : Nat)
    (hneed : required.length < size)
    (hcand : ¬(candidatesOf devices available required).isEmpty)
    (htot : totalAllocatable devices required
      (groupsOf (candidatesOf devices available required)) = 0) :
    capacityAwareAlloc devices available required size = none := by
  rw [capacityAwareAlloc]
  rw [if_neg (Nat.not_le.mpr hneed)]
  simp only [hcand, if_false, Bool.false_eq_true, htot, if_pos, if_true]

/-- Witness for C6 amended (the `TestCapacityAware_NoAllocError` input:
the required ID exhausts the single capacity slot). -/
theorem capacityAwareAlloc_noCapacity_error_witness :
    [("gpuNo::0")].length < 2 ∧
    ¬(candidatesOf [(("gpuNo::0"), ⟨0⟩), (("gpuNo::1"), ⟨0⟩), (("gpuNo"), ⟨1⟩)]
      [("gpuNo::1")] [("gpuNo::0")]).isEmpty ∧
    capacityAwareAlloc [(("gpuNo::0"), ⟨0⟩), (("gpuNo::1"), ⟨0⟩), (("gpuNo"), ⟨1⟩)]
      [("gpuNo::1")] [("gpuNo::0")] 2 = none :=
  ⟨by decide, by decide,
    capacityAwareAlloc_noCapacity_error
      [(("gpuNo::0"), ⟨0⟩), (("gpuNo::1"), ⟨0⟩), (("gpuNo"), ⟨1⟩)]
      [("gpuNo::1")] [("gpuNo::0")] 2 (by decide) (by decide) (by decide)⟩

/-- C3 counterexample: a duplicate-free required list can itself exceed a
card's replica capacity; `capacityAwareAlloc` returns it unchanged, so the
returned per-base count exceeds the capacity. -/
theorem capacityAwareAlloc_required_overflow_ce :
    capacityAwareAlloc [(("a::0"), ⟨1⟩), (("a::1"), ⟨1⟩)] [] [("a::0"), ("a::1")] 2 =
      some [("a::0"), ("a::1")] ∧
    capacityOf [(("a::0"), ⟨1⟩), (("a::1"), ⟨1⟩)] ("a") = 1 ∧
    countBase [("a::0"), ("a::1")] ("a") = 2 ∧
    List.Nodup [("a::0"), ("a::1")] ∧
    List.Nodup ([] : List String) := by
  decide

/-- C7 counterexample: two enumeration orders of the same device map (the
lists are permutations of each other), identical `available`, `required`
and `size`, yet different outputs — and the second output is not the
ascending-sorted prefix of the group.  The single-base fast path takes the
group in map-enumeration order without sorting. -/
theorem capacityAwareAlloc_enum_order_ce :
    List.Perm [(("a::0"), (⟨2⟩ : Device)), (("a::1"), ⟨2⟩)]
      [(("a::1"), ⟨2⟩), (("a::0"), ⟨2⟩)] ∧
    capacityAwareAlloc [(("a::0"), ⟨2⟩), (("a::1"), ⟨2⟩)] [("a::0"), ("a::1")] [] 1 =
      some [("a::0")] ∧
    capacityAwareAlloc [(("a::1"), ⟨2⟩), (("a::0"), ⟨2⟩)] [("a::0"), ("a::1")] [] 1 =
      some [("a::1")] ∧
    sortStrings [("a::1"), ("a::0")] = [("a::0"), ("a::1")] ∧
    ([("a::0")] : List String) ≠ [("a::1")] := by
  refine ⟨List.Perm.swap _ _ _, by decide, by decide, by decide, by decide⟩

/-- C9 counterexample: when no requested annotated ID resolves to a known
card, `updateReponse` still appends the four fixed control-device bindings
(and the MPS mounts), so the response's device set is not empty. -/
theorem updateReponse_control_devices_ce :
    resolveDevice [] [] ("GPU-X::0") = none ∧
    updateReponseDevices [] [] [("GPU-X::0")] = controlDevices ∧
    updateReponseDevices [] [] [("GPU-X::0")] ≠ [] := by
  decide

/-- C9 amended: when no requested annotated ID resolves to a known card, no
GPU index is resolved and no per-GPU device binding is fabricated — the
appended device set is exactly the fixed control-device list. -/
theorem updateReponse_unresolved_only_control
    (daemonDevs rmDevs : List (String × MDevice)) (requestIds : List String)
    (h : ∀ id ∈ requestIds, resolveDevice daemonDevs rmDevs id = none) :
    resolvedIndices daemonDevs rmDevs requestIds = [] ∧
    updateReponseDevices daemonDevs rmDevs requestIds = controlDevices := by
  have key : ∀ (ids : List String), (∀ id ∈ ids, resolveDevice daemonDevs rmDevs id = none) →
      ∀ (acc : List String),
        ids.foldl (fun acc reqID =>
          match resolveDevice daemonDevs rmDevs reqID with
          | none => acc
          | some dev => if acc.contains dev.index then acc else acc ++ [dev.index]) acc = acc := by
    intro ids
    induction ids with
    | nil => intro _ acc; rfl
    | cons x rest ih =>
      intro hall acc
      have hx : resolveDevice daemonDevs rmDevs x = none := hall x (List.mem_cons_self x rest)
      have hrest : ∀ id ∈ rest, resolveDevice daemonDevs rmDevs id = none :=
        fun id hid => hall id (List.mem_cons_of_mem x hid)
      simp only [List.foldl_cons, hx]
      exact ih hrest acc
  have hidx : resolvedIndices daemonDevs rmDevs requestIds = [] := key requestIds h []
  refine ⟨hidx, ?_⟩
  rw [updateReponseDevices, hidx]
  rfl

/-- Witness for C9 amended at a single unknown annotated ID. -/
theorem updateReponse_unresolved_only_control_witness :
    (∀ id ∈ [("GPU-X::0")], resolveDevice [] [] id = none) ∧
    (resolvedIndices [] [] [("GPU-X::0")] = [] ∧
      updateReponseDevices [] [] [("GPU-X::0")] = controlDevices) :=
  ⟨by decide, updateReponse_unresolved_only_control [] [] [("GPU-X::0")] (by decide)⟩

theorem enumFrom_filter_length {α : Type} (q : α → Bool) :
    ∀ (l : List α) (n : Nat),
      ((List.enumFrom n l).filter (fun p => q p.2)).length = (l.filter q).length := by
  intro l
  induction l with
  | nil => intro n; rfl
  | cons x rest ih =>
    intro n
    simp only [List.enumFrom, List.filter_cons]
    by_cases h : q x <;> simp [h, ih]

/-- C5: `MergeReservationIntoNodeState` fails with InsufficientCapacity iff
fewer than `numCards` devices satisfy `TotalReservedPercent +
percentPerCard ≤ 100` (absent a node-name mismatch), and on that failure
the returned NodeReservation is the unmodified input. -/
theorem merge_insufficient_iff_state_unchanged (node : NodeReservation) (spec : ReservationSpec)
    (hmatch : ¬(node.nodeName ≠ ("") ∧ spec.nodeName ≠ ("") ∧ node.nodeName ≠ spec.nodeName))
    (_hnum : 0 ≤ spec.numCards) :
    ((MergeReservationIntoNodeState node spec).2 = some MergeErr.insufficientCapacity ↔
      ((node.devices.filter (devHasRoom spec.percentPerCard)).length : Int) < spec.numCards) ∧
    ((MergeReservationIntoNodeState node spec).2 = some MergeErr.insufficientCapacity →
      (MergeReservationIntoNodeState node spec).1 = node) := by
  have hlen : ((node.devices.enum.filter
      (fun p => devHasRoom spec.percentPerCard p.2)).map Prod.fst).length
      = (node.devices.filter (devHasRoom spec.percentPerCard)).length := by
    rw [List.length_map]
    exact enumFrom_filter_length _ node.devices 0
  rw [MergeReservationIntoNodeState, if_neg hmatch]
  simp only []
  by_cases hc : ((((node.devices.enum.filter
      (fun p => devHasRoom spec.percentPerCard p.2)).map Prod.fst)).length : Int) <
        spec.numCards
  · rw [if_pos hc]
    rw [hlen] at hc
    refine ⟨Iff.intro (fun _ => hc) (fun _ => rfl), fun _ => rfl⟩
  · rw [if_neg hc]
    rw [hlen] at hc
    refine ⟨Iff.intro (fun h => ?_) (fun h => absurd h hc), fun h => ?_⟩
    · cases h
    · cases h

/-- Witness for C5 at scenario S7: two cards at 90 percent, request
`numCards = 2, percent = 20`. -/
theorem merge_insufficient_iff_state_unchanged_witness :
    ((MergeReservationIntoNodeState ⟨("n1"), [⟨("c0"), [], 90⟩, ⟨("c1"), [], 90⟩]⟩
        ⟨("p"), ("n1"), 2, 20⟩).2 = some MergeErr.insufficientCapacity ↔
      (((([⟨("c0"), [], 90⟩, ⟨("c1"), [], 90⟩] : List DeviceStatus).filter
        (devHasRoom 20)).length) : Int) < 2) ∧
    ((MergeReservationIntoNodeState ⟨("n1"), [⟨("c0"), [], 90⟩, ⟨("c1"), [], 90⟩]⟩
        ⟨("p"), ("n1"), 2, 20⟩).2 = some MergeErr.insufficientCapacity →
      (MergeReservationIntoNodeState ⟨("n1"), [⟨("c0"), [], 90⟩, ⟨("c1"), [], 90⟩]⟩
        ⟨("p"), ("n1"), 2, 20⟩).1 = ⟨("n1"), [⟨("c0"), [], 90⟩, ⟨("c1"), [], 90⟩]⟩) :=
  merge_insufficient_iff_state_unchanged ⟨("n1"), [⟨("c0"), [], 90⟩, ⟨("c1"), [], 90⟩]⟩
    ⟨("p"), ("n1"), 2, 20⟩ (by decide) (by decide)

theorem alFind?_map_val {β γ : Type} (f : β → γ) (l : List (String × β)) (k : String) :
    alFind? (l.map (fun p => (p.1, f p.2))) k = (alFind? l k).map f := by
  induction l with
  | nil => rfl
  | cons p rest ih =>
    by_cases h : p.1 = k
    · simp [alFind?, h]
    · simp [alFind?, h, ih]

/-- Frame for one `/reserve` card: a different card's remaining percent and
pending amount are untouched. -/
theorem reserveOne_frame (s : NAState) (podKey : String) (percent : Int) (c card : String)
    (h : c ≠ card) :
    alGetI (reserveOne s podKey percent c).deviceRemaining card =
      alGetI s.deviceRemaining card ∧
    pendingOf (reserveOne s podKey percent c) podKey card = pendingOf s podKey card := by
  rw [reserveOne]
  by_cases hg : 0 < min percent (alGetI s.deviceRemaining c)
  · rw [if_pos hg]
    constructor
    · exact alGetI_alSet_ne _ _ _ _ h
    · rw [pendingOf]
      simp only [alFind?_alSet_self, Option.getD_some]
      exact alGetI_alSet_ne _ _ _ _ h
  · rw [if_neg hg]
    exact ⟨rfl, rfl⟩

/-- Frame for a `/reserve` fold over cards not containing `card`. -/
theorem reserveFold_frame (podKey : String) (percent : Int) (ds : List String) (card : String)
    (h : card ∉ ds) :
    ∀ s : NAState,
      alGetI ((ds.foldl (fun st c => reserveOne st podKey percent c) s)).deviceRemaining card =
        alGetI s.deviceRemaining card ∧
      pendingOf (ds.foldl (fun st c => reserveOne st podKey percent c) s) podKey card =
        pendingOf s podKey card := by
  induction ds with
  | nil => intro s; exact ⟨rfl, rfl⟩
  | cons c rest ih =>
    intro s
    have hc : c ≠ card := fun hc => h (hc ▸ List.mem_cons_self c rest)
    have hrest : card ∉ rest := fun hr => h (List.mem_cons_of_mem c hr)
    have h1 := reserveOne_frame s podKey percent c card hc
    have h2 := ih hrest (reserveOne s podKey percent c)
    rw [List.foldl_cons]
    exact ⟨h2.1.trans h1.1, h2.2.trans h1.2⟩

/-- The effect of one `/reserve` card on that card itself. -/
theorem reserveOne_self (s : NAState) (podKey : String) (percent : Int) (card : String) :
    (0 < min percent (alGetI s.deviceRemaining card) →
      alGetI (reserveOne s podKey percent card).deviceRemaining card =
        alGetI s.deviceRemaining card - min percent (alGetI s.deviceRemaining card) ∧
      pendingOf (reserveOne s podKey percent card) podKey card =
        pendingOf s podKey card + min percent (alGetI s.deviceRemaining card)) ∧
    (¬0 < min percent (alGetI s.deviceRemaining card) →
      reserveOne s podKey percent card = s) := by
  constructor
  · intro hg
    rw [reserveOne]
    simp only [if_pos hg]
    constructor
    · exact alGetI_alSet_self _ _ _
    · rw [pendingOf]
      simp only [alFind?_alSet_self, Option.getD_some]
      rw [alGetI_alSet_self]
      rfl
  · intro hg
    rw [reserveOne]
    simp only [if_neg hg]

/-- C1: for each card of a `/reserve` request (cards pairwise distinct) the
grant is `min(percent, RemainingPercent[card])`; a positive grant debits
the ledger by exactly the grant and accumulates onto
`AllocationTable[podKey][card]`; a non-positive grant changes nothing for
the card; the remaining percent stays non-negative; and a partial grant
equals exactly the previously free capacity. -/
theorem reserve_grant_min_debit (s : NAState) (podKey : String) (devices : List String)
    (percent : Int) (card : String) (hnd : devices.Nodup) (hmem : card ∈ devices) :
    (reserveHandler s podKey devices percent).1 = 200 ∧
    (alGetI s.deviceRemaining card < percent →
      min percent (alGetI s.deviceRemaining card) = alGetI s.deviceRemaining card) ∧
    (0 < min percent (alGetI s.deviceRemaining card) →
      alGetI (reserveHandler s podKey devices percent).2.deviceRemaining card =
        alGetI s.deviceRemaining card - min percent (alGetI s.deviceRemaining card) ∧
      pendingOf (reserveHandler s podKey devices percent).2 podKey card =
        pendingOf s podKey card + min percent (alGetI s.deviceRemaining card)) ∧
    (¬0 < min percent (alGetI s.deviceRemaining card) →
      alGetI (reserveHandler s podKey devices percent).2.deviceRemaining card =
        alGetI s.deviceRemaining card ∧
      pendingOf (reserveHandler s podKey devices percent).2 podKey card =
        pendingOf s podKey card) ∧
    (0 ≤ alGetI s.deviceRemaining card →
      0 ≤ alGetI (reserveHandler s podKey devices percent).2.deviceRemaining card) := by
  obtain ⟨l1, l2, rfl⟩ := List.append_of_mem hmem
  have hnd1 : l1.Nodup ∧ (card :: l2).Nodup ∧ l1.Disjoint (card :: l2) :=
    List.nodup_append.mp hnd
  have hcardl1 : card ∉ l1 := fun hc => hnd1.2.2 hc (List.mem_cons_self card l2)
  have hcardl2 : card ∉ l2 := (List.nodup_cons.mp hnd1.2.1).1
  have hfold : (reserveHandler s podKey (l1 ++ card :: l2) percent).2 =
      (l2.foldl (fun st c => reserveOne st podKey percent c)
        (reserveOne (l1.foldl (fun st c => reserveOne st podKey percent c) s)
          podKey percent card)) := by
    rw [reserveHandler]
    rw [List.foldl_append, List.foldl_cons]
  have h1 := reserveFold_frame podKey percent l1 card hcardl1 s
  set s1 := l1.foldl (fun st c => reserveOne st podKey percent c) s with hs1
  have hrem1 : alGetI s1.deviceRemaining card = alGetI s.deviceRemaining card := h1.1
  have hpend1 : pendingOf s1 podKey card = pendingOf s podKey card := h1.2
  have hself := reserveOne_self s1 podKey percent card
  have h2 := reserveFold_frame podKey percent l2 card hcardl2
    (reserveOne s1 podKey percent card)
  refine ⟨rfl, fun hlt => min_eq_right (le_of_lt hlt), ?_, ?_, ?_⟩
  · intro hg
    rw [← hrem1] at hg
    have hs := hself.1 hg
    rw [hrem1] at hs
    rw [hfold]
    constructor
    · rw [h2.1, hs.1]
    · rw [h2.2, hs.2, hpend1]
  · intro hg
    rw [← hrem1] at hg
    have hs := hself.2 hg
    rw [hs] at h2
    rw [hfold, hs]
    exact ⟨h2.1.trans hrem1, h2.2.trans hpend1⟩
  · intro h0
    rw [hfold]
    by_cases hg : 0 < min percent (alGetI s1.deviceRemaining card)
    · have hs := hself.1 hg
      rw [h2.1, hs.1, hrem1]
      have hmin : min percent (alGetI s.deviceRemaining card) ≤
          alGetI s.deviceRemaining card := min_le_right _ _
      omega
    · have hs := hself.2 hg
      rw [h2.1, hs, hrem1]
      exact h0

/-- Witness for C1: a 30-percent request against 20 free yields the partial
grant 20 (scenario S2's second reserve). -/
theorem reserve_grant_min_debit_witness :
    List.Nodup [("dev0")] ∧ ("dev0") ∈ [("dev0")] ∧
    ((reserveHandler ⟨[(("dev0"), 20)], [(("ns/p1"), [(("dev0"), 30)])]⟩ ("ns/p2")
        [("dev0")] 30).1 = 200 ∧
      (alGetI [(("dev0"), 20)] ("dev0") < 30 →
        min 30 (alGetI [(("dev0"), 20)] ("dev0")) = alGetI [(("dev0"), 20)] ("dev0")) ∧
      (0 < min 30 (alGetI [(("dev0"), 20)] ("dev0")) →
        alGetI (reserveHandler ⟨[(("dev0"), 20)], [(("ns/p1"), [(("dev0"), 30)])]⟩ ("ns/p2")
            [("dev0")] 30).2.deviceRemaining ("dev0") =
          alGetI [(("dev0"), 20)] ("dev0") - min 30 (alGetI [(("dev0"), 20)] ("dev0")) ∧
        pendingOf (reserveHandler ⟨[(("dev0"), 20)], [(("ns/p1"), [(("dev0"), 30)])]⟩ ("ns/p2")
            [("dev0")] 30).2 ("ns/p2") ("dev0") =
          pendingOf ⟨[(("dev0"), 20)], [(("ns/p1"), [(("dev0"), 30)])]⟩ ("ns/p2") ("dev0") +
            min 30 (alGetI [(("dev0"), 20)] ("dev0"))) ∧
      (¬0 < min 30 (alGetI [(("dev0"), 20)] ("dev0")) →
        alGetI (reserveHandler ⟨[(("dev0"), 20)], [(("ns/p1"), [(("dev0"), 30)])]⟩ ("ns/p2")
            [("dev0")] 30).2.deviceRemaining ("dev0") = alGetI [(("dev0"), 20)] ("dev0") ∧
        pendingOf (reserveHandler ⟨[(("dev0"), 20)], [(("ns/p1"), [(("dev0"), 30)])]⟩ ("ns/p2")
            [("dev0")] 30).2 ("ns/p2") ("dev0") =
          pendingOf ⟨[(("dev0"), 20)], [(("ns/p1"), [(("dev0"), 30)])]⟩ ("ns/p2") ("dev0")) ∧
      (0 ≤ alGetI [(("dev0"), 20)] ("dev0") →
        0 ≤ alGetI (reserveHandler ⟨[(("dev0"), 20)], [(("ns/p1"), [(("dev0"), 30)])]⟩
            ("ns/p2") [("dev0")] 30).2.deviceRemaining ("dev0"))) :=
  ⟨by decide, by decide,
    reserve_grant_min_debit ⟨[(("dev0"), 20)], [(("ns/p1"), [(("dev0"), 30)])]⟩ ("ns/p2")
      [("dev0")] 30 ("dev0") (by decide) (by decide)⟩

/-- C4: once finalize has consumed all of a pod's pending entries (every
pending card of the pod is in the finalized set), `/unreserve` for that pod
returns 200 and leaves every card's remaining percent unchanged; finalize
itself never credits the ledger. -/
theorem unreserve_after_finalize_ledger_unchanged (s : NAState) (cards : List String)
    (podKey : String)
    (hall : ∀ e ∈ (alFind? s.allocations podKey).getD [], e.1 ∈ cards) :
    (finalize s cards).deviceRemaining = s.deviceRemaining ∧
    (unreserveHandler (finalize s cards) podKey).1 = 200 ∧
    (unreserveHandler (finalize s cards) podKey).2.deviceRemaining = s.deviceRemaining := by
  have hfind : alFind? (finalize s cards).allocations podKey =
      (alFind? s.allocations podKey).map (fun m => m.filter (fun e => !(cards.contains e.1))) :=
    alFind?_map_val _ s.allocations podKey
  refine ⟨rfl, ?_, ?_⟩
  · rw [unreserveHandler, hfind]
    cases alFind? s.allocations podKey with
    | none => rfl
    | some m => rfl
  · rw [unreserveHandler, hfind]
    cases hmap : alFind? s.allocations podKey with
    | none => rfl
    | some m =>
      have hm : ∀ e ∈ m, e.1 ∈ cards := by
        intro e he
        exact hall e (by rw [hmap]; exact he)
      have hempty : m.filter (fun e => !(cards.contains e.1)) = [] := by
        rw [List.filter_eq_nil_iff]
        intro e he
        have hc : cards.contains e.1 = true := List.elem_eq_true_of_mem (hm e he)
        simp only [hc, Bool.not_true, Bool.false_eq_true, not_false_eq_true]
      rw [Option.map_some', hempty]
      rfl

/-- Witness for C4 at scenario S1 after the reserve step. -/
theorem unreserve_after_finalize_ledger_unchanged_witness :
    (∀ e ∈ (alFind? ([(("ns/pod1"), [(("dev0"), 30)])] :
        List (String × List (String × Int))) ("ns/pod1")).getD [], e.1 ∈ [("dev0")]) ∧
    ((finalize ⟨[(("dev0"), 70)], [(("ns/pod1"), [(("dev0"), 30)])]⟩
        [("dev0")]).deviceRemaining = [(("dev0"), 70)] ∧
      (unreserveHandler (finalize ⟨[(("dev0"), 70)], [(("ns/pod1"), [(("dev0"), 30)])]⟩
        [("dev0")]) ("ns/pod1")).1 = 200 ∧
      (unreserveHandler (finalize ⟨[(("dev0"), 70)], [(("ns/pod1"), [(("dev0"), 30)])]⟩
        [("dev0")]) ("ns/pod1")).2.deviceRemaining = [(("dev0"), 70)]) :=
  ⟨by decide,
    unreserve_after_finalize_ledger_unchanged
      ⟨[(("dev0"), 70)], [(("ns/pod1"), [(("dev0"), 30)])]⟩ [("dev0")] ("ns/pod1")
      (by decide)⟩

/-- The descending relation the scorer sorts by. -/
def geInt (a b : Int) : Prop :=
  b ≤ a

instance : DecidableRel geInt :=
  fun a b => inferInstanceAs (Decidable (b ≤ a))

instance : IsTotal Int geInt :=
  ⟨fun a b => le_total b a⟩

instance : IsTrans Int geInt :=
  ⟨fun _ _ _ hab hbc => le_trans hbc hab⟩

theorem clampScore_bounds (x : Int) : 0 ≤ clampScore x ∧ clampScore x ≤ 100 := by
  rw [clampScore]
  by_cases h1 : x > 100
  · simp [h1]
  · rw [if_neg h1]
    by_cases h2 : x < 0
    · simp [h2]
    · rw [if_neg h2]
      omega

/-- C8: `ScoreNodeTopNAverage` errs exactly when the node's status map has
fewer than `numCards` entries; otherwise it returns the clamped truncated
mean of the `numCards` largest remaining percents (a multiset split where
every dropped value is at most every picked value); the result is always in
[0, 100]; and on the ledger {g0:100, g1:80, g2:60, g3:40} with N = 2 the
score is 90. -/
theorem scoreTopN_error_iff_mean_clamped (m : List (String × Int)) (numCards : Nat)
    (_hpos : 0 < numCards) :
    ((∃ e, ScoreNodeTopNAverage m numCards = .error e) ↔ m.length < numCards) ∧
    (numCards ≤ m.length →
      ∃ picked rest, picked.length = numCards ∧
        List.Perm (picked ++ rest) (m.map Prod.snd) ∧
        (∀ a ∈ picked, ∀ b ∈ rest, b ≤ a) ∧
        ScoreNodeTopNAverage m numCards =
          .ok (clampScore (Int.tdiv (picked.foldl (· + ·) 0) (numCards : Int)))) ∧
    (∀ v, ScoreNodeTopNAverage m numCards = .ok v → 0 ≤ v ∧ v ≤ 100) ∧
    ScoreNodeTopNAverage [(("g0"), 100), (("g1"), 80), (("g2"), 60), (("g3"), 40)] 2 =
      .ok 90 := by
  refine ⟨?_, ?_, ?_, by rfl⟩
  · constructor
    · rintro ⟨e, he⟩
      by_contra hlen
      rw [ScoreNodeTopNAverage, if_neg hlen] at he
      cases he
    · intro hlen
      exact ⟨_, by rw [ScoreNodeTopNAverage, if_pos hlen]⟩
  · intro hle
    have hnotlt : ¬m.length < numCards := Nat.not_lt.mpr hle
    set sorted := (m.map Prod.snd).insertionSort (fun a b => b ≤ a) with hsorted
    have hperm : List.Perm sorted (m.map Prod.snd) := List.perm_insertionSort _ _
    have hsort : List.Pairwise geInt sorted :=
      List.sorted_insertionSort geInt (m.map Prod.snd)
    refine ⟨sorted.take numCards, sorted.drop numCards, ?_, ?_, ?_, ?_⟩
    · rw [List.length_take]
      have : sorted.length = (m.map Prod.snd).length := hperm.length_eq
      rw [this, List.length_map]
      omega
    · rw [List.take_append_drop]
      exact hperm
    · intro a ha b hb
      rw [← List.take_append_drop numCards sorted] at hsort
      exact (List.pairwise_append.mp hsort).2.2 a ha b hb
    · rw [ScoreNodeTopNAverage, if_neg hnotlt]
  · intro v hv
    rw [ScoreNodeTopNAverage] at hv
    by_cases hlen : m.length < numCards
    · rw [if_pos hlen] at hv
      cases hv
    · rw [if_neg hlen] at hv
      cases hv
      exact clampScore_bounds _

/-- Witness for C8 at the S5 ledger. -/
theorem scoreTopN_error_iff_mean_clamped_witness :
    0 < 2 ∧
    (((∃ e, ScoreNodeTopNAverage [(("g0"), 100), (("g1"), 80), (("g2"), 60), (("g3"), 40)] 2 =
        .error e) ↔ [(("g0"), 100), (("g1"), 80), (("g2"), 60), (("g3"), 40)].length < 2) ∧
      (2 ≤ [(("g0"), 100), (("g1"), 80), (("g2"), 60), (("g3"), 40)].length →
        ∃ picked rest, picked.length = 2 ∧
          List.Perm (picked ++ rest)
            ([(("g0"), 100), (("g1"), 80), (("g2"), 60), (("g3"), 40)].map Prod.snd) ∧
          (∀ a ∈ picked, ∀ b ∈ rest, b ≤ a) ∧
          ScoreNodeTopNAverage [(("g0"), 100), (("g1"), 80), (("g2"), 60), (("g3"), 40)] 2 =
            .ok (clampScore (Int.tdiv (picked.foldl (· + ·) 0) (2 : Int)))) ∧
      (∀ v, ScoreNodeTopNAverage [(("g0"), 100), (("g1"), 80), (("g2"), 60), (("g3"), 40)] 2 =
        .ok v → 0 ≤ v ∧ v ≤ 100) ∧
      ScoreNodeTopNAverage [(("g0"), 100), (("g1"), 80), (("g2"), 60), (("g3"), 40)] 2 =
        .ok 90) :=
  ⟨by decide,
    scoreTopN_error_iff_mean_clamped [(("g0"), 100), (("g1"), 80), (("g2"), 60), (("g3"), 40)]
      2 (by decide)⟩

/-! ### Allocator lemmas -/

theorem countBase_append (xs ys : List String) (b : String) :
    countBase (xs ++ ys) b = countBase xs b + countBase ys b := by
  simp [countBase, List.filter_append]

theorem countBase_eq_zero (xs : List String) (b : String) (h : ∀ x ∈ xs, getID x ≠ b) :
    countBase xs b = 0 := by
  rw [countBase]
  have : xs.filter (fun id => getID id = b) = [] := by
    rw [List.filter_eq_nil_iff]
    intro x hx
    simp [h x hx]
  rw [this]
  rfl

theorem countBase_eq_length (xs : List String) (b : String) (h : ∀ x ∈ xs, getID x = b) :
    countBase xs b = xs.length := by
  induction xs with
  | nil => rfl
  | cons x rest ih =>
    have hx : getID x = b := h x (List.mem_cons_self x rest)
    have hr := ih (fun y hy => h y (List.mem_cons_of_mem x hy))
    simp only [countBase, List.filter_cons, hx] at *
    simp [hr]

theorem countBase_pos_exists (xs : List String) (b : String) (h : countBase xs b ≠ 0) :
    ∃ x ∈ xs, getID x = b := by
  by_contra hc
  push_neg at hc
  exact h (countBase_eq_zero xs b hc)

theorem pickCand_mem (cands : List Cand) (c : Cand) (h : pickCand cands = some c) :
    c ∈ cands := by
  match cands, h with
  | c0 :: rest, h =>
    have key : ∀ (rest : List Cand) (best : Cand),
        rest.foldl (fun best d => if candLt d best then d else best) best ∈ best :: rest := by
      intro rest
      induction rest with
      | nil => intro best; exact List.mem_cons_self best []
      | cons d rest ih =>
        intro best
        rw [List.foldl_cons]
        by_cases hd : candLt d best
        · rw [if_pos hd]
          rcases List.mem_cons.mp (ih d) with h' | h'
          · rw [h']
            exact List.mem_cons_of_mem _ (List.mem_cons_self d rest)
          · exact List.mem_cons_of_mem _ (List.mem_cons_of_mem d h')
        · rw [if_neg hd]
          rcases List.mem_cons.mp (ih best) with h' | h'
          · rw [h']
            exact List.mem_cons_self best (d :: rest)
          · exact List.mem_cons_of_mem _ (List.mem_cons_of_mem d h')
    rw [pickCand] at h
    cases h
    exact key rest c0

theorem candsOf_mem (devices : List (String × Device)) (used : String → Nat) (remaining : Nat)
    (groups : List (String × List String)) (c : Cand) (h : c ∈ candsOf devices used remaining groups) :
    ∃ l, (c.base, l) ∈ groups ∧ 0 < l.length ∧
      used c.base < capacityOf devices c.base ∧
      c.alloc = min (min l.length (capacityOf devices c.base - used c.base)) remaining ∧
      0 < c.alloc := by
  rw [candsOf] at h
  rcases List.mem_filterMap.mp h with ⟨g, hg, hfg⟩
  by_cases h0 : g.2.length = 0
  · rw [if_pos h0] at hfg; cases hfg
  · rw [if_neg h0] at hfg
    by_cases h1 : capacityOf devices g.1 ≤ used g.1
    · rw [if_pos h1] at hfg; cases hfg
    · rw [if_neg h1] at hfg
      simp only [] at hfg
      by_cases h2 : min (min g.2.length (capacityOf devices g.1 - used g.1)) remaining = 0
      · rw [if_pos h2] at hfg; cases hfg
      · rw [if_neg h2] at hfg
        cases hfg
        refine ⟨g.2, hg, Nat.pos_of_ne_zero h0, Nat.lt_of_not_le h1, rfl,
          Nat.pos_of_ne_zero h2⟩

theorem mem_keyNodup_unique {β : Type} (gs : List (String × β)) (b : String) (l1 l2 : β)
    (hnd : (gs.map Prod.fst).Nodup) (h1 : (b, l1) ∈ gs) (h2 : (b, l2) ∈ gs) : l1 = l2 := by
  induction gs with
  | nil => cases h1
  | cons g rest ih =>
    have hnd2 : (g.1 :: rest.map Prod.fst).Nodup := by simpa using hnd
    have hnd' := List.nodup_cons.mp hnd2
    rcases List.mem_cons.mp h1 with e1 | m1 <;> rcases List.mem_cons.mp h2 with e2 | m2
    · rw [← e2] at e1; cases e1; rfl
    · exfalso
      apply hnd'.1
      have hb : g.1 = b := by rw [← e1]
      rw [hb]
      exact List.mem_map.mpr ⟨(b, l2), m2, rfl⟩
    · exfalso
      apply hnd'.1
      have hb : g.1 = b := by rw [← e2]
      rw [hb]
      exact List.mem_map.mpr ⟨(b, l1), m1, rfl⟩
    · exact ih hnd'.2 m1 m2

theorem groupList_of_mem (gs : List (String × List String)) (b : String) (l : List String)
    (hnd : (gs.map Prod.fst).Nodup) (h : (b, l) ∈ gs) : groupList gs b = l := by
  induction gs with
  | nil => cases h
  | cons g rest ih =>
    have hnd2 : (g.1 :: rest.map Prod.fst).Nodup := by simpa using hnd
    have hnd' := List.nodup_cons.mp hnd2
    rcases List.mem_cons.mp h with e | m
    · rw [← e]
      simp [groupList, alFind?]
    · have hne : g.1 ≠ b := by
        intro he
        apply hnd'.1
        rw [he]
        exact List.mem_map.mpr ⟨(b, l), m, rfl⟩
      simp only [groupList, alFind?, if_neg hne]
      exact ih hnd'.2 m

theorem groupPush_cases (gs : List (String × List String)) (b id : String)
    (g' : String × List String) (h : g' ∈ groupPush gs b id) :
    g' ∈ gs ∨ (∃ l, (b, l) ∈ gs ∧ g' = (b, l ++ [id])) ∨ g' = (b, [id]) := by
  induction gs with
  | nil =>
    rw [groupPush] at h
    rcases List.mem_singleton.mp h with rfl
    exact Or.inr (Or.inr rfl)
  | cons g rest ih =>
    rw [groupPush] at h
    by_cases hb : g.1 = b
    · rw [if_pos hb] at h
      rcases List.mem_cons.mp h with e | m
      · refine Or.inr (Or.inl ⟨g.2, ?_, ?_⟩)
        · rw [← hb]
          exact List.mem_cons_self g rest
        · rw [e, hb]
      · exact Or.inl (List.mem_cons_of_mem g m)
    · rw [if_neg hb] at h
      rcases List.mem_cons.mp h with e | m
      · exact Or.inl (e ▸ List.mem_cons_self g rest)
      · rcases ih m with h' | ⟨l, hl, he⟩ | he
        · exact Or.inl (List.mem_cons_of_mem g h')
        · exact Or.inr (Or.inl ⟨l, List.mem_cons_of_mem g hl, he⟩)
        · exact Or.inr (Or.inr he)

theorem groupPush_keys_subset (gs : List (String × List String)) (b id : String) :
    ∀ k ∈ (groupPush gs b id).map Prod.fst, k ∈ gs.map Prod.fst ∨ k = b := by
  intro k hk
  rcases List.mem_map.mp hk with ⟨g', hg', rfl⟩
  rcases groupPush_cases gs b id g' hg' with h | ⟨l, hl, he⟩ | he
  · exact Or.inl (List.mem_map.mpr ⟨g', h, rfl⟩)
  · rw [he]
    exact Or.inr rfl
  · rw [he]
    exact Or.inr rfl

theorem groupPush_keys_nodup (gs : List (String × List String)) (b id : String)
    (hnd : (gs.map Prod.fst).Nodup) : ((groupPush gs b id).map Prod.fst).Nodup := by
  induction gs with
  | nil => simp [groupPush]
  | cons g rest ih =>
    have hnd2 : (g.1 :: rest.map Prod.fst).Nodup := by simpa using hnd
    have hnd' := List.nodup_cons.mp hnd2
    rw [groupPush]
    by_cases hb : g.1 = b
    · rw [if_pos hb]
      simpa using hnd
    · rw [if_neg hb]
      simp only [List.map_cons, List.nodup_cons]
      refine ⟨?_, ih hnd'.2⟩
      intro hin
      rcases groupPush_keys_subset rest b id g.1 hin with h | h
      · exact hnd'.1 h
      · exact hb h

theorem candidatesOf_nodup (devices : List (String × Device)) (available required : List String)
    (hdev : (devices.map Prod.fst).Nodup) :
    (candidatesOf devices available required).Nodup := by
  rw [candidatesOf]
  exact ((List.filter_sublist devices).map Prod.fst).nodup hdev

theorem candidatesOf_not_required (devices : List (String × Device))
    (available required : List String) (x : String)
    (h : x ∈ candidatesOf devices available required) : x ∉ required := by
  rw [candidatesOf] at h
  rcases List.mem_map.mp h with ⟨p, hp, rfl⟩
  have hcond := List.of_mem_filter hp
  simp only [Bool.and_eq_true, Bool.not_eq_true'] at hcond
  intro hmem
  have hc : required.contains p.1 = true := List.elem_eq_true_of_mem hmem
  rw [hcond.2] at hc
  cases hc

theorem groupsFold_inv (cs : List String) :
    ∀ (gs : List (String × List String)) (seen : List String),
      (gs.map Prod.fst).Nodup →
      (∀ g ∈ gs, ∀ x ∈ g.2, getID x = g.1 ∧ x ∈ seen) →
      (∀ g ∈ gs, g.2.Nodup) →
      (∀ c ∈ cs, c ∉ seen) →
      cs.Nodup →
      (((cs.foldl (fun gs c => groupPush gs (getID c) c) gs).map Prod.fst).Nodup ∧
        (∀ g ∈ cs.foldl (fun gs c => groupPush gs (getID c) c) gs,
          (∀ x ∈ g.2, getID x = g.1 ∧ (x ∈ seen ∨ x ∈ cs)) ∧ g.2.Nodup)) := by
  induction cs with
  | nil =>
    intro gs seen hknd hels hlnd _ _
    refine ⟨hknd, fun g hg => ⟨fun x hx => ?_, hlnd g hg⟩⟩
    have := hels g hg x hx
    exact ⟨this.1, Or.inl this.2⟩
  | cons c rest ih =>
    intro gs seen hknd hels hlnd hfresh hcnd
    have hcseen : c ∉ seen := hfresh c (List.mem_cons_self c rest)
    have hcnd' := List.nodup_cons.mp hcnd
    have step := ih (groupPush gs (getID c) c) (seen ++ [c])
      (groupPush_keys_nodup gs (getID c) c hknd)
      (by
        intro g hg x hx
        rcases groupPush_cases gs (getID c) c g hg with hin | ⟨l, hl, he⟩ | he
        · have := hels g hin x hx
          exact ⟨this.1, List.mem_append_left _ this.2⟩
        · rw [he] at hx ⊢
          rcases List.mem_append.mp hx with hxl | hxc
          · have := hels (getID c, l) hl x hxl
            exact ⟨this.1, List.mem_append_left _ this.2⟩
          · rcases List.mem_singleton.mp hxc with rfl
            exact ⟨rfl, List.mem_append_right _ (List.mem_singleton.mpr rfl)⟩
        · rw [he] at hx ⊢
          rcases List.mem_singleton.mp hx with rfl
          exact ⟨rfl, List.mem_append_right _ (List.mem_singleton.mpr rfl)⟩)
      (by
        intro g hg
        rcases groupPush_cases gs (getID c) c g hg with hin | ⟨l, hl, he⟩ | he
        · exact hlnd g hin
        · rw [he]
          rw [List.nodup_append]
          refine ⟨hlnd (getID c, l) hl, List.nodup_singleton c, ?_⟩
          intro a hal hac
          have ha : a = c := List.mem_singleton.mp hac
          rw [ha] at hal
          exact hcseen (hels (getID c, l) hl c hal).2
        · rw [he]
          exact List.nodup_singleton c)
      (by
        intro c' hc'
        rw [List.mem_append]
        rintro (hs | hc)
        · exact hfresh c' (List.mem_cons_of_mem c hc') hs
        · rcases List.mem_singleton.mp hc with rfl
          exact hcnd'.1 hc')
      hcnd'.2
    rw [List.foldl_cons]
    refine ⟨step.1, fun g hg => ⟨fun x hx => ?_, (step.2 g hg).2⟩⟩
    have := (step.2 g hg).1 x hx
    refine ⟨this.1, ?_⟩
    rcases this.2 with hs | hr
    · rcases List.mem_append.mp hs with hs' | hc'
      · exact Or.inl hs'
      · rcases List.mem_singleton.mp hc' with rfl
        exact Or.inr (List.mem_cons_self _ _)
    · exact Or.inr (List.mem_cons_of_mem c hr)

theorem groupsOf_inv (candidates : List String) (hnd : candidates.Nodup) :
    ((groupsOf candidates).map Prod.fst).Nodup ∧
    (∀ g ∈ groupsOf candidates, (∀ x ∈ g.2, getID x = g.1 ∧ x ∈ candidates) ∧ g.2.Nodup) := by
  have h := groupsFold_inv candidates [] []
    (by simp) (by intro g hg; cases hg) (by intro g hg; cases hg)
    (by intro c _ hc; cases hc) hnd
  rw [groupsOf]
  refine ⟨h.1, fun g hg => ⟨fun x hx => ?_, (h.2 g hg).2⟩⟩
  have := (h.2 g hg).1 x hx
  refine ⟨this.1, ?_⟩
  rcases this.2 with hs | hr
  · cases hs
  · exact hr

/-- One step of the fast-path fold (the lambda of `fastFold`). -/
def fastStep (devices : List (String × Device)) (required : List String) (needed : Nat)
    (best : String × Int) (g : String × List String) : String × Int :=
  if capacityOf devices g.1 ≤ countBase required g.1 then best
  else
    let maxAlloc := min g.2.length (capacityOf devices g.1 - countBase required g.1)
    if maxAlloc < needed then best
    else
      let leftover : Int := (maxAlloc - needed : Nat)
      if best.2 = -1 ∨ leftover < best.2 ∨ (leftover = best.2 ∧ strLt g.1 best.1) then
        (g.1, leftover)
      else best

theorem fastFold_eq_foldl (devices : List (String × Device)) (required : List String)
    (needed : Nat) (groups : List (String × List String)) :
    fastFold devices required needed groups =
      groups.foldl (fastStep devices required needed) (("" : String), (-1 : Int)) :=
  rfl

/-- The single-base fast path qualifies a group when its remaining capacity
is positive and covers `needed` together with its availability. -/
def fastQual (devices : List (String × Device)) (required : List String) (needed : Nat)
    (g : String × List String) : Prop :=
  countBase required g.1 < capacityOf devices g.1 ∧
    needed ≤ min g.2.length (capacityOf devices g.1 - countBase required g.1)

/-- The fast-path leftover of a qualifying group. -/
def fastLeftover (devices : List (String × Device)) (required : List String) (needed : Nat)
    (g : String × List String) : Nat :=
  min g.2.length (capacityOf devices g.1 - countBase required g.1) - needed

instance (devices : List (String × Device)) (required : List String) (needed : Nat)
    (g : String × List String) : Decidable (fastQual devices required needed g) :=
  inferInstanceAs (Decidable (countBase required g.1 < capacityOf devices g.1 ∧
    needed ≤ min g.2.length (capacityOf devices g.1 - countBase required g.1)))

theorem fastStep_cases (devices : List (String × Device)) (required : List String)
    (needed : Nat) (best : String × Int) (g : String × List String) :
    fastStep devices required needed best g = best ∨
      (fastStep devices required needed best g =
          (g.1, (fastLeftover devices required needed g : Int)) ∧
        fastQual devices required needed g) := by
  rw [fastStep]
  by_cases h1 : capacityOf devices g.1 ≤ countBase required g.1
  · rw [if_pos h1]
    exact Or.inl rfl
  · rw [if_neg h1]
    simp only []
    by_cases h2 : min g.2.length (capacityOf devices g.1 - countBase required g.1) < needed
    · rw [if_pos h2]
      exact Or.inl rfl
    · rw [if_neg h2]
      by_cases h3 : best.2 = -1 ∨
          ((min g.2.length (capacityOf devices g.1 - countBase required g.1) - needed : Nat) :
            Int) < best.2 ∨
          (((min g.2.length (capacityOf devices g.1 - countBase required g.1) - needed : Nat) :
            Int) = best.2 ∧ strLt g.1 best.1)
      · rw [if_pos h3]
        exact Or.inr ⟨rfl, Nat.lt_of_not_le h1, Nat.le_of_not_lt h2⟩
      · rw [if_neg h3]
        exact Or.inl rfl

theorem fastFold_qualifies (devices : List (String × Device)) (required : List String)
    (needed : Nat) (groups : List (String × List String))
    (h : (fastFold devices required needed groups).1 ≠ ("")) :
    ∃ g ∈ groups, fastQual devices required needed g ∧
      (fastFold devices required needed groups).1 = g.1 := by
  rw [fastFold_eq_foldl] at h ⊢
  have key : ∀ (gs : List (String × List String)) (best : String × Int),
      (∀ g' ∈ gs, g' ∈ groups) →
      (best.1 ≠ ("") → ∃ g ∈ groups, fastQual devices required needed g ∧ best.1 = g.1) →
      ((gs.foldl (fastStep devices required needed) best).1 ≠ ("") →
        ∃ g ∈ groups, fastQual devices required needed g ∧
          (gs.foldl (fastStep devices required needed) best).1 = g.1) := by
    intro gs
    induction gs with
    | nil => intro best _ hbest; exact hbest
    | cons g0 rest ih =>
      intro best hsub hbest
      rw [List.foldl_cons]
      refine ih _ (fun g' hg' => hsub g' (List.mem_cons_of_mem g0 hg')) ?_
      intro hne
      rcases fastStep_cases devices required needed best g0 with he | ⟨he, hq⟩
      · rw [he] at hne ⊢
        exact hbest hne
      · rw [he]
        exact ⟨g0, hsub g0 (List.mem_cons_self g0 rest), hq, rfl⟩
  exact key groups _ (fun g' hg' => hg') (fun hne => absurd rfl hne) h

/-- The main invariant of the iterative best-fit loop: the loop result is
duplicate-free, disjoint from `required`, and together with `required`
never exceeds any base's capacity. -/
theorem iterLoop_inv (devices : List (String × Device)) (required : List String) :
    ∀ (fuel : Nat) (groups : List (String × List String)) (used : String → Nat)
      (remaining : Nat) (selected : List String),
      (groups.map Prod.fst).Nodup →
      (∀ g ∈ groups, ∀ x ∈ g.2, getID x = g.1) →
      (∀ g ∈ groups, g.2.Nodup) →
      (∀ g ∈ groups, ∀ x ∈ g.2, x ∉ required ∧ x ∉ selected) →
      selected.Nodup →
      (∀ x ∈ selected, x ∉ required) →
      (∀ b, used b = countBase required b + countBase selected b) →
      (∀ b, used b ≤ capacityOf devices b) →
      ((iterLoop devices fuel groups used remaining selected).Nodup ∧
        (∀ x ∈ iterLoop devices fuel groups used remaining selected, x ∉ required) ∧
        (∀ b, countBase required b +
          countBase (iterLoop devices fuel groups used remaining selected) b ≤
            capacityOf devices b)) := by
  intro fuel
  induction fuel with
  | zero =>
    intro groups used remaining selected _ _ _ _ hselnd hselreq hused hcap
    rw [iterLoop]
    exact ⟨hselnd, hselreq, fun b => by rw [← hused b]; exact hcap b⟩
  | succ fuel ih =>
    intro groups used remaining selected hknd hbase hlnd hdisj hselnd hselreq hused hcap
    rw [iterLoop]
    by_cases hrem : remaining = 0
    · rw [if_pos hrem]
      exact ⟨hselnd, hselreq, fun b => by rw [← hused b]; exact hcap b⟩
    · rw [if_neg hrem]
      cases hpick : pickCand (candsOf devices used remaining groups) with
      | none =>
        exact ⟨hselnd, hselreq, fun b => by rw [← hused b]; exact hcap b⟩
      | some c =>
        simp only []
        obtain ⟨l, hgl, _, hcaplt, halloc, _⟩ :=
          candsOf_mem devices used remaining groups c (pickCand_mem _ c hpick)
        have hglist : groupList groups c.base = l := groupList_of_mem groups c.base l hknd hgl
        rw [hglist]
        have halloclen : c.alloc ≤ l.length := by
          rw [halloc]
          exact le_trans (min_le_left _ _) (min_le_left _ _)
        have halloccap : c.alloc ≤ capacityOf devices c.base - used c.base := by
          rw [halloc]
          exact le_trans (min_le_left _ _) (min_le_right _ _)
        have hlnodup : l.Nodup := hlnd (c.base, l) hgl
        have hbasel : ∀ x ∈ l, getID x = c.base := hbase (c.base, l) hgl
        have hdisjl : ∀ x ∈ l, x ∉ required ∧ x ∉ selected := hdisj (c.base, l) hgl
        have htakebase : ∀ x ∈ l.take c.alloc, getID x = c.base :=
          fun x hx => hbasel x (List.mem_of_mem_take hx)
        have htakelen : (l.take c.alloc).length = c.alloc := by
          rw [List.length_take]
          exact Nat.min_eq_left halloclen
        have htdnodup : (l.take c.alloc ++ l.drop c.alloc).Nodup := by
          rw [List.take_append_drop]
          exact hlnodup
        have htd := List.nodup_append.mp htdnodup
        have hkeys' : (groups.map
            (fun g => if g.1 = c.base then (g.1, g.2.drop c.alloc) else g)).map Prod.fst =
              groups.map Prod.fst := by
          rw [List.map_map]
          apply List.map_congr_left
          intro g _
          by_cases h : g.1 = c.base <;> simp [h]
        have hmem' : ∀ g' ∈ groups.map
            (fun g => if g.1 = c.base then (g.1, g.2.drop c.alloc) else g),
            (g' ∈ groups ∧ g'.1 ≠ c.base) ∨ g' = (c.base, l.drop c.alloc) := by
          intro g' hg'
          rcases List.mem_map.mp hg' with ⟨g, hg, rfl⟩
          by_cases h : g.1 = c.base
          · right
            have hgm : (c.base, g.2) ∈ groups := by
              rw [← h]
              exact hg
            have : g.2 = l := mem_keyNodup_unique groups c.base g.2 l hknd hgm hgl
            rw [if_pos h, h, this]
          · left
            rw [if_neg h]
            exact ⟨hg, h⟩
        refine ih _ _ _ _ ?_ ?_ ?_ ?_ ?_ ?_ ?_ ?_
        · rw [hkeys']
          exact hknd
        · intro g' hg' x hx
          rcases hmem' g' hg' with ⟨hin, _⟩ | he
          · exact hbase g' hin x hx
          · rw [he] at hx ⊢
            exact hbasel x (List.mem_of_mem_drop hx)
        · intro g' hg'
          rcases hmem' g' hg' with ⟨hin, _⟩ | he
          · exact hlnd g' hin
          · rw [he]
            exact htd.2.1
        · intro g' hg' x hx
          rcases hmem' g' hg' with ⟨hin, hne⟩ | he
          · have hold := hdisj g' hin x hx
            refine ⟨hold.1, ?_⟩
            rw [List.mem_append]
            rintro (hs | ht)
            · exact hold.2 hs
            · exact hne ((hbase g' hin x hx).symm.trans (htakebase x ht))
          · rw [he] at hx
            have hxl : x ∈ l := List.mem_of_mem_drop hx
            refine ⟨(hdisjl x hxl).1, ?_⟩
            rw [List.mem_append]
            rintro (hs | ht)
            · exact (hdisjl x hxl).2 hs
            · exact htd.2.2 ht hx
        · rw [List.nodup_append]
          refine ⟨hselnd, htd.1, ?_⟩
          intro a ha hat
          exact (hdisjl a (List.mem_of_mem_take hat)).2 ha
        · intro x hx
          rcases List.mem_append.mp hx with hs | ht
          · exact hselreq x hs
          · exact (hdisjl x (List.mem_of_mem_take ht)).1
        · intro b
          rw [countBase_append]
          by_cases h : b = c.base
          · rw [if_pos h, h]
            rw [countBase_eq_length (l.take c.alloc) c.base htakebase, htakelen,
              hused c.base]
            omega
          · rw [if_neg h]
            rw [countBase_eq_zero (l.take c.alloc) b
              (fun x hx => by rw [htakebase x hx]; exact fun he => h he.symm)]
            rw [hused b]
            omega
        · intro b
          by_cases h : b = c.base
          · rw [if_pos h, h]
            have := hcap c.base
            omega
          · rw [if_neg h]
            exact hcap b

/-- C3 amended: for duplicate-free `available` and `required`, provided the
required list itself does not exceed any base's replica capacity,
`capacityAwareAlloc` returns a duplicate-free list whose per-base count
(required included) never exceeds that base's capacity
(`Device.Replicas`, default 1). -/
theorem capacityAwareAlloc_capacity_nodup (devices : List (String × Device))
    (available required : List String) (size : Nat)
    (hdev : (devices.map Prod.fst).Nodup)
    (_hav : available.Nodup) (hreq : required.Nodup)
    (hreqcap : ∀ id ∈ required,
      countBase required (getID id) ≤ capacityOf devices (getID id))
    (res : List String)
    (hres : capacityAwareAlloc devices available required size = some res) :
    res.Nodup ∧ ∀ b, countBase res b ≤ capacityOf devices b := by
  have hreqcap' : ∀ b, countBase required b ≤ capacityOf devices b := by
    intro b
    by_cases h : countBase required b = 0
    · rw [h]
      exact Nat.zero_le _
    · obtain ⟨id, hid, rfl⟩ := countBase_pos_exists required b h
      exact hreqcap id hid
  rw [capacityAwareAlloc] at hres
  by_cases h1 : size ≤ required.length
  · rw [if_pos h1] at hres
    cases hres
    exact ⟨hreq, hreqcap'⟩
  · rw [if_neg h1] at hres
    simp only [] at hres
    by_cases h2 : (candidatesOf devices available required).isEmpty
    · rw [if_pos h2] at hres
      cases hres
      exact ⟨hreq, hreqcap'⟩
    · rw [if_neg h2] at hres
      by_cases h3 : totalAllocatable devices required
          (groupsOf (candidatesOf devices available required)) = 0
      · rw [if_pos h3] at hres
        cases hres
      · rw [if_neg h3] at hres
        have hcnd : (candidatesOf devices available required).Nodup :=
          candidatesOf_nodup _ _ _ hdev
        obtain ⟨hgknd, hginv⟩ := groupsOf_inv _ hcnd
        by_cases h4 : (fastFold devices required (size - required.length)
            (groupsOf (candidatesOf devices available required))).1 ≠ ("")
        · rw [if_pos h4] at hres
          cases hres
          obtain ⟨g, hgmem, hqual, hbeq⟩ := fastFold_qualifies devices required
            (size - required.length) (groupsOf (candidatesOf devices available required)) h4
          have hgl : groupList (groupsOf (candidatesOf devices available required)) g.1 =
              g.2 :=
            groupList_of_mem _ g.1 g.2 hgknd (by simpa using hgmem)
          rw [hbeq, hgl]
          have hlen : size - required.length ≤ g.2.length :=
            le_trans hqual.2 (min_le_left _ _)
          have hbaseg : ∀ x ∈ g.2.take (size - required.length), getID x = g.1 :=
            fun x hx => ((hginv g hgmem).1 x (List.mem_of_mem_take hx)).1
          have hreqg : ∀ x ∈ g.2.take (size - required.length), x ∉ required :=
            fun x hx => candidatesOf_not_required devices available required x
              ((hginv g hgmem).1 x (List.mem_of_mem_take hx)).2
          have htknd : (g.2.take (size - required.length)).Nodup :=
            (List.take_sublist _ _).nodup (hginv g hgmem).2
          have htklen : (g.2.take (size - required.length)).length =
              size - required.length := by
            rw [List.length_take]
            exact Nat.min_eq_left hlen
          constructor
          · rw [List.nodup_append]
            refine ⟨hreq, htknd, ?_⟩
            intro a ha hat
            exact hreqg a hat ha
          · intro b
            rw [countBase_append]
            by_cases hb : b = g.1
            · rw [hb]
              rw [countBase_eq_length _ g.1 hbaseg, htklen]
              have hq1 := hqual.1
              have hq2 : size - required.length ≤
                  capacityOf devices g.1 - countBase required g.1 :=
                le_trans hqual.2 (min_le_right _ _)
              omega
            · rw [countBase_eq_zero (g.2.take (size - required.length)) b
                (fun x hx => by rw [hbaseg x hx]; exact fun he => hb he.symm)]
              have := hreqcap' b
              omega
        · rw [if_neg h4] at hres
          cases hres
          have hsorted_mem : ∀ g' ∈ (groupsOf (candidatesOf devices available
              required)).map (fun g => (g.1, sortStrings g.2)),
              ∃ g ∈ groupsOf (candidatesOf devices available required),
                g' = (g.1, sortStrings g.2) := by
            intro g' hg'
            rcases List.mem_map.mp hg' with ⟨g, hg, rfl⟩
            exact ⟨g, hg, rfl⟩
          have hloop := iterLoop_inv devices required (size - required.length)
            ((groupsOf (candidatesOf devices available required)).map
              (fun g => (g.1, sortStrings g.2)))
            (fun b => countBase required b) (size - required.length) []
            (by
              rw [List.map_map]
              have : ((fun p : String × List String => p.1) ∘
                  fun g : String × List String => (g.1, sortStrings g.2)) = Prod.fst := by
                funext g
                rfl
              rw [this]
              exact hgknd)
            (by
              intro g' hg' x hx
              obtain ⟨g, hg, rfl⟩ := hsorted_mem g' hg'
              exact ((hginv g hg).1 x ((sortStrings_perm g.2).mem_iff.mp hx)).1)
            (by
              intro g' hg'
              obtain ⟨g, hg, rfl⟩ := hsorted_mem g' hg'
              exact ((sortStrings_perm g.2).nodup_iff).mpr (hginv g hg).2)
            (by
              intro g' hg' x hx
              obtain ⟨g, hg, rfl⟩ := hsorted_mem g' hg'
              have hxc := ((hginv g hg).1 x ((sortStrings_perm g.2).mem_iff.mp hx)).2
              exact ⟨candidatesOf_not_required devices available required x hxc,
                List.not_mem_nil x⟩)
            List.nodup_nil
            (by intro x hx; cases hx)
            (by
              intro b
              show countBase required b = countBase required b + countBase [] b
              have h0 : countBase [] b = 0 := rfl
              omega)
            hreqcap'
          constructor
          · rw [List.nodup_append]
            exact ⟨hreq, hloop.1, fun a ha hat => hloop.2.1 a hat ha⟩
          · intro b
            rw [countBase_append]
            exact hloop.2.2 b

/-- Witness for C3: one required ID on base `a`, two spare bases, size 3. -/
theorem capacityAwareAlloc_capacity_nodup_witness :
    ((([(("a::0"), (⟨2⟩ : Device)), (("a::1"), ⟨2⟩), (("b::0"), ⟨2⟩), (("b::1"), ⟨2⟩)] :
        List (String × Device)).map Prod.fst).Nodup) ∧
    (∀ id ∈ [("a::0")],
      countBase [("a::0")] (getID id) ≤
        capacityOf [(("a::0"), (⟨2⟩ : Device)), (("a::1"), ⟨2⟩), (("b::0"), ⟨2⟩),
          (("b::1"), ⟨2⟩)] (getID id)) ∧
    capacityAwareAlloc [(("a::0"), ⟨2⟩), (("a::1"), ⟨2⟩), (("b::0"), ⟨2⟩), (("b::1"), ⟨2⟩)]
      [("a::0"), ("a::1"), ("b::0"), ("b::1")] [("a::0")] 3 =
      some [("a::0"), ("b::0"), ("b::1")] ∧
    (List.Nodup [("a::0"), ("b::0"), ("b::1")] ∧
      ∀ b, countBase [("a::0"), ("b::0"), ("b::1")] b ≤
        capacityOf [(("a::0"), (⟨2⟩ : Device)), (("a::1"), ⟨2⟩), (("b::0"), ⟨2⟩),
          (("b::1"), ⟨2⟩)] b) :=
  ⟨by decide, by decide, by decide,
    capacityAwareAlloc_capacity_nodup
      [(("a::0"), ⟨2⟩), (("a::1"), ⟨2⟩), (("b::0"), ⟨2⟩), (("b::1"), ⟨2⟩)]
      [("a::0"), ("a::1"), ("b::0"), ("b::1")] [("a::0")] 3
      (by decide) (by decide) (by decide) (by decide)
      [("a::0"), ("b::0"), ("b::1")] (by decide)⟩

/-! ### String-order lemmas for the fast-path tie-break -/

theorem charsLt_trichotomy : ∀ (as bs : List Char),
    charsLt as bs = true ∨ charsLt bs as = true ∨ as = bs := by
  intro as
  induction as with
  | nil =>
    intro bs
    cases bs with
    | nil => exact Or.inr (Or.inr rfl)
    | cons b bs => exact Or.inl rfl
  | cons a as ih =>
    intro bs
    cases bs with
    | nil => exact Or.inr (Or.inl rfl)
    | cons b bs =>
      by_cases hab : a.toNat < b.toNat
      · left
        show charsLt (a :: as) (b :: bs) = true
        rw [charsLt, if_pos hab]
      · by_cases hba : b.toNat < a.toNat
        · right
          left
          show charsLt (b :: bs) (a :: as) = true
          rw [charsLt, if_pos hba]
        · have heq : a = b :=
            Char.eq_of_val_eq (UInt32.ext (Nat.le_antisymm
              (Nat.le_of_not_lt hba) (Nat.le_of_not_lt hab)))
          rcases ih bs with h | h | h
          · left
            show charsLt (a :: as) (b :: bs) = true
            rw [charsLt, if_neg hab, if_neg hba]
            exact h
          · right
            left
            show charsLt (b :: bs) (a :: as) = true
            rw [charsLt, if_neg hba, if_neg hab]
            exact h
          · right
            right
            rw [heq, h]

theorem charsLt_trans : ∀ (as bs cs : List Char),
    charsLt as bs = true → charsLt bs cs = true → charsLt as cs = true := by
  intro as
  induction as with
  | nil =>
    intro bs cs h1 h2
    cases cs with
    | nil =>
      cases bs with
      | nil => cases h1
      | cons b bs => cases h2
    | cons c cs => rfl
  | cons a as ih =>
    intro bs cs h1 h2
    cases bs with
    | nil => cases h1
    | cons b bs =>
      cases cs with
      | nil => cases h2
      | cons c cs =>
        rw [charsLt] at h1 h2 ⊢
        by_cases hab : a.toNat < b.toNat
        · by_cases hbc : b.toNat < c.toNat
          · rw [if_pos (Nat.lt_trans hab hbc)]
          · rw [if_neg hbc] at h2
            by_cases hcb : c.toNat < b.toNat
            · rw [if_pos hcb] at h2
              cases h2
            · have : b.toNat = c.toNat :=
                Nat.le_antisymm (Nat.le_of_not_lt hcb) (Nat.le_of_not_lt hbc)
              rw [if_pos (this ▸ hab)]
        · rw [if_neg hab] at h1
          by_cases hba : b.toNat < a.toNat
          · rw [if_pos hba] at h1
            cases h1
          · rw [if_neg hba] at h1
            have hab' : a.toNat = b.toNat :=
              Nat.le_antisymm (Nat.le_of_not_lt hba) (Nat.le_of_not_lt hab)
            by_cases hbc : b.toNat < c.toNat
            · rw [if_pos hbc] at h2
              rw [if_pos (hab' ▸ hbc)]
            · rw [if_neg hbc] at h2
              by_cases hcb : c.toNat < b.toNat
              · rw [if_pos hcb] at h2
                cases h2
              · rw [if_neg hcb] at h2
                rw [if_neg (hab' ▸ hbc), if_neg (fun h => hcb (hab' ▸ h))]
                exact ih bs cs h1 h2

theorem strLt_trichotomy (a b : String) :
    strLt a b = true ∨ strLt b a = true ∨ a = b := by
  rcases charsLt_trichotomy a.data b.data with h | h | h
  · exact Or.inl h
  · exact Or.inr (Or.inl h)
  · refine Or.inr (Or.inr ?_)
    cases a
    cases b
    exact congrArg String.mk (by simpa using h)

theorem strLt_trans (a b c : String) (h1 : strLt a b = true) (h2 : strLt b c = true) :
    strLt a c = true :=
  charsLt_trans a.data b.data c.data h1 h2

/-! ### Fast-path minimality -/

theorem fastQual_not_step (devices : List (String × Device)) (required : List String)
    (needed : Nat) (best : String × Int) (g : String × List String)
    (h : ¬fastQual devices required needed g) :
    fastStep devices required needed best g = best := by
  rcases fastStep_cases devices required needed best g with he | ⟨_, hq⟩
  · exact he
  · exact absurd hq h

theorem fastQual_step (devices : List (String × Device)) (required : List String)
    (needed : Nat) (best : String × Int) (g : String × List String)
    (hq : fastQual devices required needed g) :
    (((best.2 = -1 ∨ ((fastLeftover devices required needed g : Nat) : Int) < best.2 ∨
        (((fastLeftover devices required needed g : Nat) : Int) = best.2 ∧
          strLt g.1 best.1)) →
      fastStep devices required needed best g =
        (g.1, (fastLeftover devices required needed g : Int))) ∧
    (¬(best.2 = -1 ∨ ((fastLeftover devices required needed g : Nat) : Int) < best.2 ∨
        (((fastLeftover devices required needed g : Nat) : Int) = best.2 ∧
          strLt g.1 best.1)) →
      fastStep devices required needed best g = best)) := by
  have h1 : ¬capacityOf devices g.1 ≤ countBase required g.1 := Nat.not_le.mpr hq.1
  have h2 : ¬min g.2.length (capacityOf devices g.1 - countBase required g.1) < needed :=
    Nat.not_lt.mpr hq.2
  have hfl : min g.2.length (capacityOf devices g.1 - countBase required g.1) - needed =
      fastLeftover devices required needed g := rfl
  constructor
  · intro hc
    rw [fastStep, if_neg h1]
    simp only []
    rw [if_neg h2, hfl, if_pos hc]
  · intro hc
    rw [fastStep, if_neg h1]
    simp only []
    rw [if_neg h2, hfl, if_neg hc]

/-- The lexicographic dominance used by the fast path's strict-improvement
fold: first smaller leftover, then smaller base. -/
def lexLe (p q : Nat × String) : Prop :=
  p.1 < q.1 ∨ (p.1 = q.1 ∧ (strLt p.2 q.2 = true ∨ p.2 = q.2))

theorem lexLe_refl (p : Nat × String) : lexLe p p :=
  Or.inr ⟨rfl, Or.inr rfl⟩

theorem lexLe_trans (p q r : Nat × String) (h1 : lexLe p q) (h2 : lexLe q r) : lexLe p r := by
  rcases h1 with h1 | ⟨he1, hs1⟩
  · rcases h2 with h2 | ⟨he2, _⟩
    · exact Or.inl (Nat.lt_trans h1 h2)
    · exact Or.inl (he2 ▸ h1)
  · rcases h2 with h2 | ⟨he2, hs2⟩
    · exact Or.inl (he1 ▸ h2)
    · refine Or.inr ⟨he1.trans he2, ?_⟩
      rcases hs1 with hs1 | hs1 <;> rcases hs2 with hs2 | hs2
      · exact Or.inl (strLt_trans _ _ _ hs1 hs2)
      · exact Or.inl (hs2 ▸ hs1)
      · exact Or.inl (hs1 ▸ hs2)
      · exact Or.inr (hs1.trans hs2)

/-- The fast-path fold returns the `lexLe`-least qualifying group (when one
exists and no base is the empty-string sentinel). -/
theorem fastFold_min (devices : List (String × Device)) (required : List String)
    (needed : Nat) (groups : List (String × List String))
    (hq : ∃ g ∈ groups, fastQual devices required needed g) :
    ∃ g ∈ groups, fastQual devices required needed g ∧
      (fastFold devices required needed groups).1 = g.1 ∧
      (∀ g' ∈ groups, fastQual devices required needed g' →
        lexLe (fastLeftover devices required needed g, g.1)
          (fastLeftover devices required needed g', g'.1)) := by
  rw [fastFold_eq_foldl]
  have key : ∀ (gs : List (String × List String)) (processed : List (String × List String))
      (best : String × Int),
      (∀ g ∈ processed, g ∈ groups) → (∀ g ∈ gs, g ∈ groups) →
      ((best = (("" : String), (-1 : Int)) ∧ ∀ g ∈ processed, ¬fastQual devices required needed g) ∨
        (∃ g ∈ processed, fastQual devices required needed g ∧
          best = (g.1, (fastLeftover devices required needed g : Int)) ∧
          ∀ g' ∈ processed, fastQual devices required needed g' →
            lexLe (fastLeftover devices required needed g, g.1)
              (fastLeftover devices required needed g', g'.1))) →
      ((gs.foldl (fastStep devices required needed) best = (("" : String), (-1 : Int)) ∧
          ∀ g ∈ processed ++ gs, ¬fastQual devices required needed g) ∨
        (∃ g ∈ processed ++ gs, fastQual devices required needed g ∧
          gs.foldl (fastStep devices required needed) best =
            (g.1, (fastLeftover devices required needed g : Int)) ∧
          ∀ g' ∈ processed ++ gs, fastQual devices required needed g' →
            lexLe (fastLeftover devices required needed g, g.1)
              (fastLeftover devices required needed g', g'.1))) := by
    intro gs
    induction gs with
    | nil =>
      intro processed best _ _ hinv
      rw [List.foldl_nil, List.append_nil]
      exact hinv
    | cons g0 rest ih =>
      intro processed best hproc hgs hinv
      rw [List.foldl_cons]
      have hg0 : g0 ∈ groups := hgs g0 (List.mem_cons_self g0 rest)
      have hassoc : processed ++ g0 :: rest = (processed ++ [g0]) ++ rest := by
        simp
      rw [hassoc]
      apply ih (processed ++ [g0])
      · intro g hg
        rcases List.mem_append.mp hg with h | h
        · exact hproc g h
        · rcases List.mem_singleton.mp h with rfl
          exact hg0
      · exact fun g hg => hgs g (List.mem_cons_of_mem g0 hg)
      · by_cases hqg0 : fastQual devices required needed g0
        · rcases hinv with ⟨hbest, hnone⟩ | ⟨gmin, hgm, hqm, hbest, hdom⟩
          · rw [hbest, (fastQual_step devices required needed _ g0 hqg0).1 (Or.inl rfl)]
            refine Or.inr ⟨g0, List.mem_append_right _ (List.mem_singleton.mpr rfl), hqg0,
              rfl, ?_⟩
            intro g' hg' hq'
            rcases List.mem_append.mp hg' with h | h
            · exact absurd hq' (hnone g' h)
            · rcases List.mem_singleton.mp h with rfl
              exact lexLe_refl _
          · rw [hbest]
            by_cases hcond : ((gmin.1, (fastLeftover devices required needed gmin : Int)) :
                String × Int).2 = -1 ∨
                ((fastLeftover devices required needed g0 : Nat) : Int) <
                  ((gmin.1, (fastLeftover devices required needed gmin : Int)) :
                    String × Int).2 ∨
                (((fastLeftover devices required needed g0 : Nat) : Int) =
                  ((gmin.1, (fastLeftover devices required needed gmin : Int)) :
                    String × Int).2 ∧
                  strLt g0.1 ((gmin.1, (fastLeftover devices required needed gmin : Int)) :
                    String × Int).1)
            · rw [(fastQual_step devices required needed _ g0 hqg0).1 hcond]
              have hstrict : fastLeftover devices required needed g0 <
                  fastLeftover devices required needed gmin ∨
                  (fastLeftover devices required needed g0 =
                    fastLeftover devices required needed gmin ∧
                    strLt g0.1 gmin.1 = true) := by
                rcases hcond with hc | hc | hc
                · exfalso
                  simp only [] at hc
                  omega
                · simp only [] at hc
                  left
                  exact_mod_cast hc
                · simp only [] at hc
                  right
                  exact ⟨by exact_mod_cast hc.1, hc.2⟩
              refine Or.inr ⟨g0, List.mem_append_right _ (List.mem_singleton.mpr rfl),
                hqg0, rfl, ?_⟩
              intro g' hg' hq'
              have hle : lexLe (fastLeftover devices required needed g0, g0.1)
                  (fastLeftover devices required needed gmin, gmin.1) := by
                rcases hstrict with h | ⟨he, hs⟩
                · exact Or.inl h
                · exact Or.inr ⟨he, Or.inl hs⟩
              rcases List.mem_append.mp hg' with h | h
              · exact lexLe_trans _ _ _ hle (hdom g' h hq')
              · rcases List.mem_singleton.mp h with rfl
                exact lexLe_refl _
            · rw [(fastQual_step devices required needed _ g0 hqg0).2 hcond]
              push_neg at hcond
              refine Or.inr ⟨gmin, List.mem_append_left _ hgm, hqm, rfl, ?_⟩
              intro g' hg' hq'
              rcases List.mem_append.mp hg' with h | h
              · exact hdom g' h hq'
              · rcases List.mem_singleton.mp h with rfl
                simp only [] at hcond
                have h2 := hcond.2.1
                have h3 := hcond.2.2
                have hle : fastLeftover devices required needed gmin ≤
                    fastLeftover devices required needed g' := by
                  exact_mod_cast h2
                rcases Nat.lt_or_ge (fastLeftover devices required needed gmin)
                    (fastLeftover devices required needed g') with hlt | hge
                · exact Or.inl hlt
                · have heq : fastLeftover devices required needed gmin =
                      fastLeftover devices required needed g' :=
                    Nat.le_antisymm hle hge
                  refine Or.inr ⟨heq, ?_⟩
                  have hns : ¬strLt g'.1 gmin.1 = true := h3 (by exact_mod_cast heq.symm)
                  rcases strLt_trichotomy gmin.1 g'.1 with h | h | h
                  · exact Or.inl h
                  · exact absurd h hns
                  · exact Or.inr h
        · rw [fastQual_not_step devices required needed best g0 hqg0]
          rcases hinv with ⟨hbest, hnone⟩ | ⟨gmin, hgm, hqm, hbest, hdom⟩
          · refine Or.inl ⟨hbest, ?_⟩
            intro g hg
            rcases List.mem_append.mp hg with h | h
            · exact hnone g h
            · rcases List.mem_singleton.mp h with rfl
              exact hqg0
          · refine Or.inr ⟨gmin, List.mem_append_left _ hgm, hqm, hbest, ?_⟩
            intro g' hg' hq'
            rcases List.mem_append.mp hg' with h | h
            · exact hdom g' h hq'
            · rcases List.mem_singleton.mp h with rfl
              exact absurd hq' hqg0
  have hres := key groups [] (("" : String), (-1 : Int))
    (by intro g hg; cases hg) (fun g hg => hg) (Or.inl ⟨rfl, by intro g hg; cases hg⟩)
  rcases hres with ⟨_, hnone⟩ | ⟨g, hg, hq', hbest, hdom⟩
  · obtain ⟨g, hg, hqg⟩ := hq
    exact absurd hqg (hnone g (by simpa using hg))
  · refine ⟨g, by simpa using hg, hq', by rw [hbest], ?_⟩
    intro g' hg' hq''
    exact hdom g' (by simpa using hg') hq''

/-- C7 amended: with a fixed device-map enumeration order, whenever some
card qualifies for the single-base fast path (and no base ID is the
empty-string sentinel), `capacityAwareAlloc` picks the unique
`(leftover, baseID)`-least qualifying card and returns `required` followed
by the first `needed` annotated IDs of that card's group in enumeration
order — not sorted; determinism holds only relative to that order. -/
theorem capacityAwareAlloc_fast_path_min (devices : List (String × Device))
    (available required : List String) (size : Nat)
    (hdev : (devices.map Prod.fst).Nodup)
    (hsz : required.length < size)
    (hcand : ¬(candidatesOf devices available required).isEmpty)
    (htot : totalAllocatable devices required
      (groupsOf (candidatesOf devices available required)) ≠ 0)
    (hne : ∀ g ∈ groupsOf (candidatesOf devices available required), g.1 ≠ (""))
    (hq : ∃ g ∈ groupsOf (candidatesOf devices available required),
      fastQual devices required (size - required.length) g) :
    ∃ g ∈ groupsOf (candidatesOf devices available required),
      fastQual devices required (size - required.length) g ∧
      (∀ g' ∈ groupsOf (candidatesOf devices available required),
        fastQual devices required (size - required.length) g' →
        lexLe (fastLeftover devices required (size - required.length) g, g.1)
          (fastLeftover devices required (size - required.length) g', g'.1)) ∧
      capacityAwareAlloc devices available required size =
        some (required ++ g.2.take (size - required.length)) := by
  obtain ⟨g, hg, hqg, hbest, hdom⟩ := fastFold_min devices required (size - required.length)
    (groupsOf (candidatesOf devices available required)) hq
  have hgne : g.1 ≠ ("") := hne g hg
  have hcnd : (candidatesOf devices available required).Nodup :=
    candidatesOf_nodup _ _ _ hdev
  obtain ⟨hgknd, _⟩ := groupsOf_inv _ hcnd
  have hgl : groupList (groupsOf (candidatesOf devices available required)) g.1 = g.2 :=
    groupList_of_mem _ g.1 g.2 hgknd (by simpa using hg)
  refine ⟨g, hg, hqg, hdom, ?_⟩
  rw [capacityAwareAlloc]
  rw [if_neg (Nat.not_le.mpr hsz)]
  simp only [hcand, Bool.false_eq_true, if_false, htot, if_pos]
  have h4 : (fastFold devices required (size - required.length)
      (groupsOf (candidatesOf devices available required))).1 ≠ ("") := by
    rw [hbest]
    exact hgne
  rw [if_pos h4, hbest, hgl]

/-- Witness for C7 amended: two qualifying bases tie on leftover; the
lexicographically smaller base `a` wins even though base `b` is enumerated
first. -/
theorem capacityAwareAlloc_fast_path_min_witness :
    (([(("b::0"), (⟨2⟩ : Device)), (("b::1"), ⟨2⟩), (("a::0"), ⟨2⟩), (("a::1"), ⟨2⟩)].map
      Prod.fst).Nodup) ∧
    ([] : List String).length < 2 ∧
    (∃ g ∈ groupsOf (candidatesOf
        [(("b::0"), (⟨2⟩ : Device)), (("b::1"), ⟨2⟩), (("a::0"), ⟨2⟩), (("a::1"), ⟨2⟩)]
        [("b::0"), ("b::1"), ("a::0"), ("a::1")] []),
      fastQual [(("b::0"), (⟨2⟩ : Device)), (("b::1"), ⟨2⟩), (("a::0"), ⟨2⟩), (("a::1"), ⟨2⟩)]
        [] (2 - ([] : List String).length) g) ∧
    (∃ g ∈ groupsOf (candidatesOf
        [(("b::0"), (⟨2⟩ : Device)), (("b::1"), ⟨2⟩), (("a::0"), ⟨2⟩), (("a::1"), ⟨2⟩)]
        [("b::0"), ("b::1"), ("a::0"), ("a::1")] []),
      fastQual [(("b::0"), (⟨2⟩ : Device)), (("b::1"), ⟨2⟩), (("a::0"), ⟨2⟩), (("a::1"), ⟨2⟩)]
        [] (2 - ([] : List String).length) g ∧
      (∀ g' ∈ groupsOf (candidatesOf
          [(("b::0"), (⟨2⟩ : Device)), (("b::1"), ⟨2⟩), (("a::0"), ⟨2⟩), (("a::1"), ⟨2⟩)]
          [("b::0"), ("b::1"), ("a::0"), ("a::1")] []),
        fastQual [(("b::0"), (⟨2⟩ : Device)), (("b::1"), ⟨2⟩), (("a::0"), ⟨2⟩),
          (("a::1"), ⟨2⟩)] [] (2 - ([] : List String).length) g' →
        lexLe (fastLeftover [(("b::0"), (⟨2⟩ : Device)), (("b::1"), ⟨2⟩), (("a::0"), ⟨2⟩),
            (("a::1"), ⟨2⟩)] [] (2 - ([] : List String).length) g, g.1)
          (fastLeftover [(("b::0"), (⟨2⟩ : Device)), (("b::1"), ⟨2⟩), (("a::0"), ⟨2⟩),
            (("a::1"), ⟨2⟩)] [] (2 - ([] : List String).length) g', g'.1)) ∧
      capacityAwareAlloc
        [(("b::0"), (⟨2⟩ : Device)), (("b::1"), ⟨2⟩), (("a::0"), ⟨2⟩), (("a::1"), ⟨2⟩)]
        [("b::0"), ("b::1"), ("a::0"), ("a::1")] [] 2 =
        some ([] ++ g.2.take (2 - ([] : List String).length))) :=
  ⟨by decide, by decide, by decide,
    capacityAwareAlloc_fast_path_min
      [(("b::0"), (⟨2⟩ : Device)), (("b::1"), ⟨2⟩), (("a::0"), ⟨2⟩), (("a::1"), ⟨2⟩)]
      [("b::0"), ("b::1"), ("a::0"), ("a::1")] [] 2
      (by decide) (by decide) (by decide) (by decide) (by decide) (by decide)⟩

end KDP
